import Mathlib

/-!
Shallow Lean embedding of the EhMaster indexing core
(`src-tauri/src/scanner.rs`, `db.rs`, `commands.rs`, `watcher.rs`,
`thumbnail.rs`), followed by theorems settling the frozen claims about it.

Conventions of the embedding:
* Rust `String`/`&str` become Lean `String`; string primitives (trim, char
  search, splitting) are re-implemented structurally over the character
  list so the kernel can evaluate them. Byte positions of the ASCII-only
  patterns used by the code coincide with character positions, so Rust
  byte-indexed slicing is modelled with character-indexed `take`/`drop`.
  Rust Unicode-aware `trim`/`to_lowercase` are modelled on the ASCII range,
  which is exact for every input the code's sidecar grammar and filename
  comparisons involve.
* Rust `f64` (the rating field) is modelled as `ℚ`; every rating in scope
  is a short decimal fraction that `f64` parsing represents exactly.
* Filesystem reads are modelled by explicit environment records (`ScanFs`,
  `WatchFs`, `ThumbFs`) supplying what the code would read from disk.
* The SQLite table `galleries` (path `UNIQUE`, id `AUTOINCREMENT`) is
  modelled as a list of rows plus the next fresh id.
-/

namespace EhMaster

/-! ### Structural string primitives -/

/-- Build a string from its character list. -/
def ofChars (cs : List Char) : String := ⟨cs⟩

/-- Rust `str::starts_with` for string patterns. -/
def strStarts (s pre : String) : Bool := pre.data.isPrefixOf s.data

/-- Rust `str::trim` (whitespace at both ends removed). -/
def strTrim (s : String) : String :=
  ofChars ((s.data.dropWhile Char.isWhitespace).reverse.dropWhile Char.isWhitespace).reverse

/-- Drop the first `n` characters (models Rust byte slicing `[n..]` of
ASCII-prefixed strings). -/
def strDropChars (s : String) (n : Nat) : String := ofChars (s.data.drop n)

/-- Take the first `n` characters (models Rust byte slicing `[..n]`). -/
def strTakeChars (s : String) (n : Nat) : String := ofChars (s.data.take n)

/-- Rust `str::to_lowercase`, modelled on the ASCII range. -/
def strToLower (s : String) : String := ofChars (s.data.map Char.toLower)

/-- Rust `str::split_whitespace`: maximal non-whitespace runs, in order. -/
def wsSplit : List Char → List Char → List String
  | [], acc => if acc.isEmpty then [] else [ofChars acc.reverse]
  | c :: rest, acc =>
    if c.isWhitespace then
      if acc.isEmpty then wsSplit rest [] else ofChars acc.reverse :: wsSplit rest []
    else wsSplit rest (c :: acc)

/-- First whitespace-separated token, mirroring `split_whitespace().next()`. -/
def firstToken (s : String) : Option String := (wsSplit s.data []).head?

/-- Numeric value of an all-digit character run; `none` on empty or
non-digit input (mirrors the failure side of Rust integer parsing). -/
def digitsVal? (cs : List Char) : Option Nat :=
  if cs.isEmpty then none
  else if cs.all Char.isDigit then
    some (cs.foldl (fun a c => a * 10 + (c.toNat - 48)) 0)
  else none

/-- Rust `str::parse::<i64>`: optional sign, digits, failure on overflow. -/
def parseI64? (s : String) : Option Int :=
  let signed : Option Int :=
    match s.data with
    | '-' :: rest => (digitsVal? rest).map (fun n => -(n : Int))
    | '+' :: rest => (digitsVal? rest).map (fun n => (n : Int))
    | cs => (digitsVal? cs).map (fun n => (n : Int))
  signed.bind fun v =>
    if -(2 ^ 63) ≤ v ∧ v < 2 ^ 63 then some v else none

/-- Rust `str::parse::<u64>().unwrap_or(0)` on an all-digit run: the value,
or 0 when it overflows `u64`. -/
def parseU64orZero (cs : List Char) : Nat :=
  match digitsVal? cs with
  | some n => if n < 2 ^ 64 then n else 0
  | none => 0

/-- Leading integer of a `"28 pages"`-style value, mirroring
`val.split_whitespace().next().and_then(parse).unwrap_or(0)`. -/
def leadingInt (val : String) : Int :=
  ((firstToken val).bind parseI64?).getD 0

/-- Split on the character `'.'` (used to model decimal-literal parsing). -/
def splitOnDot : List Char → List Char → List (List Char)
  | [], acc => [acc.reverse]
  | c :: rest, acc =>
    if c = '.' then acc.reverse :: splitOnDot rest [] else splitOnDot rest (c :: acc)

/-- Plain decimal literal parsed into `ℚ`, mirroring Rust
`str::parse::<f64>` on the decimal ratings the sidecar format carries
(all exactly representable in `f64`, so no rounding is modelled); the
value of `d.f` is the rational `(d * 10 ^ |f| + f) / 10 ^ |f|`. -/
def parseDecimal (s : String) : Option ℚ :=
  let neg := strStarts s "-"
  let body := if neg then (s.data.drop 1) else s.data
  match splitOnDot body [] with
  | [i] => (digitsVal? i).map (fun n => mkRat (if neg then -(n : Int) else (n : Int)) 1)
  | [i, f] =>
    match digitsVal? i, digitsVal? f with
    | some n, some m =>
      let num : Int := (n : Int) * ((10 : Int) ^ f.length) + (m : Int)
      some (mkRat (if neg then -num else num) ((10 : Nat) ^ f.length))
    | _, _ => none
  | _ => none

/-- Character position of the first occurrence of `pat` in `cs`, mirroring
Rust `str::find` for the ASCII patterns the parser searches. -/
def findSub (cs pat : List Char) : Option Nat :=
  match cs with
  | [] => if pat.isEmpty then some 0 else none
  | _ :: rest =>
    if pat.isPrefixOf cs then some 0
    else (findSub rest pat).map (· + 1)

/-- Fuel-driven split on a multi-character separator, mirroring Rust
`str::split(sep)` for a non-empty separator (fuel `≥` input length makes
the fuel case unreachable). -/
def splitSepFuel (sep : List Char) : Nat → List Char → List Char → List String
  | _, [], acc => [ofChars acc.reverse]
  | 0, cs, acc => [ofChars (acc.reverse ++ cs)]
  | fuel + 1, c :: rest, acc =>
    if sep.isPrefixOf (c :: rest) then
      ofChars acc.reverse :: splitSepFuel sep fuel (List.drop (sep.length - 1) rest) []
    else splitSepFuel sep fuel rest (c :: acc)

/-- Rust `str::split(sep)` for a non-empty separator. -/
def strSplitSep (s : String) (sep : String) : List String :=
  splitSepFuel sep.data (s.data.length + 1) s.data []

/-! ### Metadata parser (`scanner.rs::parse_info_txt`) -/

/-- Parsed sidecar metadata, mirroring `models.rs` `ParsedGallery`. -/
structure ParsedGallery where
  title_en : String
  title_jp : String
  url : String
  category : String
  uploader : String
  posted : String
  language : String
  file_size : String
  page_count : Int
  rating : ℚ
  favorited : Int
  tags : List (String × String)
deriving Repr, DecidableEq

/-- Mutable state of the `parse_info_txt` line loop in `scanner.rs`. -/
structure ParseState where
  category : String
  uploader : String
  posted : String
  language : String
  file_size : String
  page_count : Int
  rating : ℚ
  favorited : Int
  tags : List (String × String)
  in_tags : Bool
deriving Repr, DecidableEq

/-- Initial `ParseState`: all fields default to empty/zero. -/
def initParseState : ParseState :=
  ⟨"", "", "", "", "", 0, 0, 0, [], false⟩

/-- Value after a `"Label: "` marker, mirroring Rust `str` prefix removal. -/
def afterLabel (line lab : String) : String :=
  strDropChars line lab.data.length

/-- One iteration of the `parse_info_txt` loop body (the if/else-if chain),
applied to an already-trimmed line. -/
def parseLineStep (st : ParseState) (line : String) : ParseState :=
  if strStarts line "Category: " then
    { st with category := strTrim (afterLabel line "Category: ") }
  else if strStarts line "Uploader: " then
    { st with uploader := strTrim (afterLabel line "Uploader: ") }
  else if strStarts line "Posted: " then
    { st with posted := strTrim (afterLabel line "Posted: ") }
  else if strStarts line "Language: " then
    { st with language := strTrim (afterLabel line "Language: ") }
  else if strStarts line "File Size: " then
    { st with file_size := strTrim (afterLabel line "File Size: ") }
  else if strStarts line "Length: " then
    { st with page_count := leadingInt (afterLabel line "Length: ") }
  else if strStarts line "Rating: " then
    { st with rating := (parseDecimal (strTrim (afterLabel line "Rating: "))).getD 0 }
  else if strStarts line "Favorited: " then
    { st with favorited := leadingInt (afterLabel line "Favorited: ") }
  else if line = "Tags:" then
    { st with in_tags := true }
  else if st.in_tags then
    if strStarts line "> " then
      let tagLine := strDropChars line 2
      match findSub tagLine.data (": ").data with
      | some colonPos =>
        let ns := strTrim (strTakeChars tagLine colonPos)
        let tagStr := strDropChars tagLine (colonPos + 2)
        let pieces := ((strSplitSep tagStr ", ").map strTrim).filter (fun t => ¬ t.data.isEmpty)
        { st with tags := st.tags ++ pieces.map (fun t => (ns, t)) }
      | none => st
    else if ¬ line.data.isEmpty ∧ ¬ strStarts line "> " then
      { st with in_tags := false }
    else st
  else st

/-- The `parse_info_txt` line loop: trims each line, applies the step, and
stops entirely at a page-listing or footer sentinel (the Rust `break`). -/
def parseLines : List String → ParseState → ParseState
  | [], st => st
  | l :: rest, st =>
    let line := strTrim l
    let st' := parseLineStep st line
    if strStarts line "Page 1:" || strStarts line "Downloaded at" then st'
    else parseLines rest st'

/-- `scanner.rs` `parse_info_txt`, over the list of lines of the sidecar
file content (the result of Rust `content.lines()`); an unreadable file in
the Rust code likewise yields `none` before any line exists to parse. -/
def parse_info_txt (lines : List String) : Option ParsedGallery :=
  if lines.length < 5 then none
  else
    let title_en := strTrim (lines.headD "")
    let title_jp := if lines.length > 1 then strTrim (lines.getD 1 "") else ""
    let url :=
      match (lines.take 5).find?
          (fun l => strStarts l "https://exhentai.org" || strStarts l "https://e-hentai.org") with
      | some l => strTrim l
      | none => ""
    let st := parseLines lines initParseState
    some
      { title_en := title_en
        title_jp := title_jp
        url := url
        category := st.category
        uploader := st.uploader
        posted := st.posted
        language := st.language
        file_size := st.file_size
        page_count := st.page_count
        rating := st.rating
        favorited := st.favorited
        tags := st.tags }

/-! ### Natural sort (`scanner.rs::natural_sort_key` and friends) -/

/-- A run of a filename: text or number, mirroring `NaturalSegment`. -/
inductive NaturalSegment where
  | text (s : String)
  | number (n : Nat)
deriving Repr, DecidableEq

/-- Accumulating loop of `natural_sort_key`: splits the character stream
into maximal digit / non-digit runs, lowercasing text runs and parsing
digit runs as `u64` (overflow gives 0, as `unwrap_or(0)` does). -/
def naturalKeyAux : List Char → List Char → List Char → List NaturalSegment → List NaturalSegment
  | [], numAcc, strAcc, segs =>
    let segs := if ¬ numAcc.isEmpty then segs ++ [.number (parseU64orZero numAcc.reverse)] else segs
    if ¬ strAcc.isEmpty then segs ++ [.text (strToLower (ofChars strAcc.reverse))] else segs
  | c :: rest, numAcc, strAcc, segs =>
    if c.isDigit then
      let segs := if ¬ strAcc.isEmpty then segs ++ [.text (strToLower (ofChars strAcc.reverse))] else segs
      naturalKeyAux rest (c :: numAcc) [] segs
    else
      let segs := if ¬ numAcc.isEmpty then segs ++ [.number (parseU64orZero numAcc.reverse)] else segs
      naturalKeyAux rest [] (c :: strAcc) segs

/-- `scanner.rs` `natural_sort_key`, over the file name of the path. -/
def natural_sort_key (name : String) : List NaturalSegment :=
  naturalKeyAux name.data [] [] []

/-- Character comparison by code point (Rust `char`/byte order on UTF-8,
which agrees with code-point order). -/
def chCmp (a b : Char) : Ordering := compare a.toNat b.toNat

/-- Lexicographic comparison of character lists (Rust `String` `Ord`). -/
def charsCmp : List Char → List Char → Ordering
  | [], [] => .eq
  | [], _ :: _ => .lt
  | _ :: _, [] => .gt
  | a :: as', b :: bs' =>
    match chCmp a b with
    | .eq => charsCmp as' bs'
    | o => o

/-- `Ord for NaturalSegment` in `scanner.rs`: numbers compare as integers,
text lexicographically, and a number sorts before text. -/
def segCmp : NaturalSegment → NaturalSegment → Ordering
  | .number a, .number b => compare a b
  | .text a, .text b => charsCmp a.data b.data
  | .number _, .text _ => .lt
  | .text _, .number _ => .gt

/-- Lexicographic comparison of segment vectors (Rust `Vec<_>` `Ord`). -/
def keyCmp : List NaturalSegment → List NaturalSegment → Ordering
  | [], [] => .eq
  | [], _ :: _ => .lt
  | _ :: _, [] => .gt
  | a :: as', b :: bs' =>
    match segCmp a b with
    | .eq => keyCmp as' bs'
    | o => o

/-- Natural-order comparison of two file names, as used by
`images.sort_by(|a, b| natural_sort_key(a).cmp(&natural_sort_key(b)))`. -/
def naturalCmp (a b : String) : Ordering :=
  keyCmp (natural_sort_key a) (natural_sort_key b)

/-- Ordered insertion step of a stable sort by `naturalCmp` (an element is
placed before the first one it does not compare greater than, preserving
the relative order of ties, as Rust `sort_by` does). -/
def insertNatural (x : String) : List String → List String
  | [] => [x]
  | y :: ys => if naturalCmp x y = .gt then y :: insertNatural x ys else x :: y :: ys

/-- Stable sort by `naturalCmp`, modelling Rust `sort_by` with the natural
key comparator (any stable sort computes the same list). -/
def naturalSort (names : List String) : List String :=
  names.foldr insertNatural []

/-- Image-extension allow-list from `scanner.rs`. -/
def IMAGE_EXTENSIONS : List String :=
  ["jpg", "jpeg", "png", "gif", "webp", "bmp", "avif"]

/-- Rust `Path::extension` on a file name: the part after the last `'.'`,
absent when there is no dot or the only dot is the leading character. -/
def extOf (name : String) : Option String :=
  match findLastDot name.data 0 none with
  | some i => if i = 0 then none else some (ofChars (name.data.drop (i + 1)))
  | none => none
where
  /-- Position of the last `'.'` in the list, if any. -/
  findLastDot : List Char → Nat → Option Nat → Option Nat
    | [], _, best => best
    | c :: rest, i, best =>
      findLastDot rest (i + 1) (if c = '.' then some i else best)

/-- Filter used by `get_first_image`/`get_all_images`: the lowercased
extension is on the allow-list. -/
def isImageFile (name : String) : Bool :=
  match extOf name with
  | some ext => IMAGE_EXTENSIONS.contains (strToLower ext)
  | none => false

/-- `scanner.rs` `get_first_image`, over the file names of a directory in
enumeration order: keep image files, sort naturally, take the first. -/
def get_first_image (entries : List String) : Option String :=
  (naturalSort (entries.filter isImageFile)).head?

/-- `scanner.rs` `get_all_images`, over the file names of a directory in
enumeration order. -/
def get_all_images (entries : List String) : List String :=
  naturalSort (entries.filter isImageFile)

/-! ### Index store (`db.rs`)

The `galleries` table (`path TEXT NOT NULL UNIQUE`,
`id INTEGER PRIMARY KEY AUTOINCREMENT`) is modelled as a list of rows in
insertion order plus the next fresh id. The `scanned_at` column (a wall
clock timestamp) and the tag / FTS side tables are not modelled: no claim
observes them, and `upsert_gallery` rewrites them from the same
`ParsedGallery` in the same call. -/

/-- One row of the `galleries` table. -/
structure GalleryRow where
  id : Nat
  path : String
  meta : ParsedGallery
  thumb_path : String
  folder_name : String
  parent_path : String
  info_modified : String
deriving Repr, DecidableEq

/-- The modelled store: rows plus the next `AUTOINCREMENT` id. -/
abbrev Db := List GalleryRow

/-- Rust `Path::file_name` on a catalog path string: the last non-empty
`'/'`-separated component. -/
def fileNameOf (path : String) : String :=
  (((strSplitSep path "/").filter (fun c => ¬ c.data.isEmpty)).getLast?).getD ""

/-- Position of the last `'/'` in a character list, if any. -/
def findLastSep : List Char → Nat → Option Nat → Option Nat
  | [], _, best => best
  | c :: rest, i, best =>
    findLastSep rest (i + 1) (if c = '/' then some i else best)

/-- Rust `Path::parent` on a catalog path string: everything before the
last separator (only stored, never read back by the modelled claims). -/
def parentOf (path : String) : String :=
  match findLastSep path.data 0 none with
  | some i => strTakeChars path i
  | none => ""

/-- `SELECT ... FROM galleries WHERE path = ?`: the first (and, under the
`UNIQUE` invariant, only) row with the given path, if any. -/
def getRowByPath : Db → String → Option GalleryRow
  | [], _ => none
  | r :: rest, path => if r.path = path then some r else getRowByPath rest path

/-- `db.rs` `get_info_modified`: the stored sidecar marker for a path. -/
def get_info_modified (db : Db) (path : String) : Option String :=
  (getRowByPath db path).map (·.info_modified)

/-- The `DO UPDATE` arm of the upsert: rewrite every non-key column of the
row holding the path (its `id` and `path` are untouched), leave other rows
alone. Folder name and parent are re-derived from the path at write time. -/
def updRow (path : String) (parsed : ParsedGallery) (thumb info_modified : String)
    (r : GalleryRow) : GalleryRow :=
  if r.path = path then
    { r with
      meta := parsed
      thumb_path := thumb
      folder_name := fileNameOf path
      parent_path := parentOf path
      info_modified := info_modified }
  else r

/-- The `INSERT` arm of the upsert: a fresh row under the next
`AUTOINCREMENT` id. -/
def newRow (nextId : Nat) (path : String) (parsed : ParsedGallery)
    (thumb info_modified : String) : GalleryRow :=
  { id := nextId, path := path, meta := parsed, thumb_path := thumb,
    folder_name := fileNameOf path, parent_path := parentOf path,
    info_modified := info_modified }

/-- `db.rs` `upsert_gallery`: `INSERT ... ON CONFLICT(path) DO UPDATE`.
On conflict the existing row is updated in place (same `id`); otherwise a
new row is appended with the fresh id. Returns the new store and next id. -/
def upsert_gallery (db : Db) (nextId : Nat) (path : String) (parsed : ParsedGallery)
    (thumb : String) (info_modified : String) : Db × Nat :=
  if (getRowByPath db path).isSome then
    (db.map (updRow path parsed thumb info_modified), nextId)
  else
    (db ++ [newRow nextId path parsed thumb info_modified], nextId + 1)

/-- `db.rs` `delete_gallery_by_path`: remove the row with that path. -/
def delete_gallery_by_path (db : Db) (path : String) : Db :=
  db.filter (fun r => r.path ≠ path)

/-- Paths of all rows (`db.rs` `get_all_gallery_paths`). -/
def get_all_gallery_paths (db : Db) : List String := db.map (·.path)

/-! ### Scanner (`commands.rs::start_scan`) -/

/-- What a scan pass reads from disk: the gallery folders discovered under
the root by `find_gallery_folders` (normalized, in enumeration order), and,
per folder, the sidecar modification marker, the parse result of its
sidecar, and the thumbnail reference produced for it (empty on failure). -/
structure ScanFs where
  folders : List String
  mtimeOf : String → String
  parseOf : String → Option ParsedGallery
  thumbOf : String → String

/-- Result of a scan: final store, next id, number of upserts performed,
and number of rows removed by the sweep. -/
structure ScanResult where
  db : Db
  nextId : Nat
  upserts : Nat
  removed : Nat
deriving Repr

/-- The change-detection test of the scan loop: the stored sidecar marker
differs from the one on disk, or no record exists for the folder. -/
def scanNeedsUpdate (fs : ScanFs) (db : Db) (folder : String) : Bool :=
  match get_info_modified db folder with
  | some stored => stored != fs.mtimeOf folder
  | none => true

/-- Per-folder body of the scan loop in `start_scan`: re-parse,
re-thumbnail and re-upsert exactly when the stored marker differs from the
sidecar marker or no record exists; a parse failure leaves the store
untouched. The accumulator is (store, next id, upserts performed). -/
def scanFolder (fs : ScanFs) (acc : Db × Nat × Nat) (folder : String) : Db × Nat × Nat :=
  if scanNeedsUpdate fs acc.1 folder then
    match fs.parseOf folder with
    | some parsed =>
      ((upsert_gallery acc.1 acc.2.1 folder parsed (fs.thumbOf folder) (fs.mtimeOf folder)).1,
       (upsert_gallery acc.1 acc.2.1 folder parsed (fs.thumbOf folder) (fs.mtimeOf folder)).2,
       acc.2.2 + 1)
    | none => acc
  else acc

/-- One step of the sweep loop of `start_scan`: a previously catalogued
path that was not encountered this pass and passes the
`path.starts_with(&root_path)` string-prefix test is deleted. -/
def sweepStep (root : String) (scanned : List String) (acc : Db × Nat) (p : String) : Db × Nat :=
  if ¬ scanned.contains p ∧ strStarts p root then
    (delete_gallery_by_path acc.1 p, acc.2 + 1)
  else acc

/-- Sweep phase of `start_scan`, over the snapshot of previously
catalogued paths. -/
def sweep (root : String) (scanned : List String) (existing : List String)
    (db : Db) : Db × Nat :=
  existing.foldl (sweepStep root scanned) (db, 0)

/-- `commands.rs` `start_scan` over the modelled store: snapshot the
existing paths, process each discovered folder, then sweep. -/
def start_scan (root : String) (fs : ScanFs) (db : Db) (nextId : Nat) : ScanResult :=
  let existing := get_all_gallery_paths db
  let processed := fs.folders.foldl (scanFolder fs) (db, nextId, 0)
  let swept := sweep root fs.folders existing processed.1
  { db := swept.1, nextId := processed.2.1, upserts := processed.2.2, removed := swept.2 }

/-! ### Watcher (`watcher.rs::start_watcher`) -/

/-- What one coalesced watcher batch reads from disk, per affected parent
folder: whether `info.txt` exists, its parse result, its modification
marker, and the thumbnail reference produced for the folder. -/
structure WatchFs where
  sidecar : String → Bool
  parseOf : String → Option ParsedGallery
  mtimeOf : String → String
  thumbOf : String → String

/-- A `watcher-update` notification payload. -/
structure WatchEvent where
  event_type : String
  path : String
deriving Repr, DecidableEq

/-- Per-folder reconciliation of the watcher loop: sidecar present and
parsing → the scanner's parse→thumbnail→upsert path plus an `"upsert"`
notification; sidecar absent but a record stored → delete plus a
`"delete"` notification; otherwise nothing. -/
def reconcileFolder (ws : WatchFs) (acc : Db × Nat × List WatchEvent)
    (folder : String) : Db × Nat × List WatchEvent :=
  if ws.sidecar folder then
    match ws.parseOf folder with
    | some parsed =>
      ((upsert_gallery acc.1 acc.2.1 folder parsed (ws.thumbOf folder) (ws.mtimeOf folder)).1,
       (upsert_gallery acc.1 acc.2.1 folder parsed (ws.thumbOf folder) (ws.mtimeOf folder)).2,
       acc.2.2 ++ [{ event_type := "upsert", path := folder }])
    | none => acc
  else
    if (getRowByPath acc.1 folder).isSome then
      (delete_gallery_by_path acc.1 folder, acc.2.1,
       acc.2.2 ++ [{ event_type := "delete", path := folder }])
    else acc

/-- One coalesced watcher batch: reconcile each distinct affected parent
folder (the Rust `HashSet` of parents, modelled as a duplicate-free list). -/
def process_batch (ws : WatchFs) (folders : List String) (db : Db) (nextId : Nat) :
    Db × Nat × List WatchEvent :=
  folders.foldl (reconcileFolder ws) (db, nextId, [])

/-! ### Thumbnail cache (`thumbnail.rs::generate_thumbnail`) -/

/-- What `generate_thumbnail` reads from and writes to disk: whether
`fs::create_dir_all(cache_dir)` succeeds, whether the cache file for this
source already exists, the two modification times (absent when the
metadata read fails), the decoded dimensions of the source (absent when
the image cannot be opened), and whether `thumbnail.save(&thumb_path)`
succeeds (a write failure makes the program return `None`). -/
structure ThumbFs where
  cacheDirOk : Bool
  cacheFileExists : Bool
  cacheMtime : Option Nat
  srcMtime : Option Nat
  decoded : Option (Nat × Nat)
  saveOk : Bool

/-- Outcome of `generate_thumbnail`: the cached file reused as-is (no
decode), a freshly generated thumbnail, or no thumbnail (`None`). -/
inductive ThumbResult where
  | reused (path : String)
  | generated (path : String)
  | failed
deriving Repr, DecidableEq

/-- Staleness check of `generate_thumbnail`: the cached file exists and
both modification times are readable with `thumb mtime ≥ source mtime`
(`if let (Some(src), Some(dst)) ... if dst >= src`). -/
def thumbFresh (fs : ThumbFs) : Bool :=
  fs.cacheFileExists &&
    match fs.srcMtime, fs.cacheMtime with
    | some src, some dst => src ≤ dst
    | _, _ => false

/-- Continuation of `generate_thumbnail` below the staleness check:
decode the source and resize, failing when the image cannot be opened, on
a zero dimension, or when saving the resized image to the cache file
fails (`thumbnail.save(&thumb_path).ok()?`). -/
def thumbRegen (fs : ThumbFs) (thumb_path : String) : ThumbResult :=
  match fs.decoded with
  | none => .failed
  | some (w, h) =>
    if w = 0 ∨ h = 0 then .failed
    else if fs.saveOk then .generated thumb_path
    else .failed

/-- `thumbnail.rs` `generate_thumbnail`, parametric in the deterministic
cache file name `thumbName` (in the source, the first 16 hex characters of
the SHA-256 of the source path plus `".jpg"`; the hash itself is not
modelled — no claim observes its value, only its determinism). The pixel
resize computation is not modelled: no claim observes file content, only
which branch runs, which path is returned, and whether the write succeeds.
As in the source, `fs::create_dir_all(cache_dir).ok()?` runs first — on
failure the function returns `None` before the staleness check. -/
def generate_thumbnail (thumbName : String → String) (source cache_dir : String)
    (fs : ThumbFs) : ThumbResult :=
  let thumb_path := cache_dir ++ "/" ++ thumbName source
  if fs.cacheDirOk then
    if thumbFresh fs then .reused thumb_path
    else thumbRegen fs thumb_path
  else .failed

/-! ### Duplicate detection

`commands.rs::get_duplicate_galleries` calls `Database::find_duplicates_by_url`
and `Database::find_duplicates_by_name`, whose bodies are not part of the
sources available here; they are modelled from the spec. -/

/-- Modelled from the spec: `Database::find_duplicates_by_url` is absent
from the available sources (only its caller `get_duplicate_galleries` in
`commands.rs` is present). Per the spec, "group galleries sharing a
non-empty URL; report only groups of size ≥ 2". Groups are formed per
distinct non-empty URL in first-appearance order. -/
def find_duplicates_by_url (db : Db) : List (List GalleryRow) :=
  (((db.map (fun r => r.meta.url)).eraseDups.filter (fun u => ¬ u.data.isEmpty)).map
      (fun u => db.filter (fun r => r.meta.url = u))).filter
    (fun g => 2 ≤ g.length)

/-- Modelled from the spec: `Database::find_duplicates_by_name` is absent
from the available sources (only its caller `get_duplicate_galleries` in
`commands.rs` is present). Per the spec, "group by case-normalized folder
name; report only groups of size ≥ 2". -/
def find_duplicates_by_name (db : Db) : List (List GalleryRow) :=
  ((db.map (fun r => strToLower r.folder_name)).eraseDups.map
      (fun nm => db.filter (fun r => strToLower r.folder_name = nm))).filter
    (fun g => 2 ≤ g.length)

/-- `commands.rs` `get_duplicate_galleries`: both groupings paired. -/
def get_duplicate_galleries (db : Db) : List (List GalleryRow) × List (List GalleryRow) :=
  (find_duplicates_by_url db, find_duplicates_by_name db)

/-! ### Auxiliary definitions used by the theorems -/

/-- Whether the natural key of a name starts with a numeric run. -/
def headIsNumber (name : String) : Bool :=
  match natural_sort_key name with
  | .number _ :: _ => true
  | _ => false

/-- Whether the natural key of a name starts with a text run. -/
def headIsText (name : String) : Bool :=
  match natural_sort_key name with
  | .text _ :: _ => true
  | _ => false

/-- A `ParsedGallery` whose only non-default field is the URL (used to
build small concrete catalogs). -/
def sampleMeta (url : String) : ParsedGallery :=
  ⟨"", "", url, "", "", "", "", "", 0, 0, 0, []⟩

/-- A catalog row with the given id, path, URL and folder name and default
remaining fields (used to build small concrete catalogs). -/
def sampleRow (i : Nat) (path url fname : String) : GalleryRow :=
  ⟨i, path, sampleMeta url, "", fname, "", ""⟩

/-- Catalog states reachable through the store's mutation interface: the
fresh store, plus anything produced by an upsert, a deletion, a scan pass
or a watcher batch — the scanner and the watcher mutate the store through
exactly these operations. -/
inductive Reachable : Db → Nat → Prop where
  | init : Reachable [] 1
  | upsert (db : Db) (nextId : Nat) (path : String) (parsed : ParsedGallery)
      (thumb info_modified : String) : Reachable db nextId →
      Reachable (upsert_gallery db nextId path parsed thumb info_modified).1
        (upsert_gallery db nextId path parsed thumb info_modified).2
  | delete (db : Db) (nextId : Nat) (path : String) : Reachable db nextId →
      Reachable (delete_gallery_by_path db path) nextId
  | scan (db : Db) (nextId : Nat) (root : String) (fs : ScanFs) : Reachable db nextId →
      Reachable (start_scan root fs db nextId).db (start_scan root fs db nextId).nextId
  | batch (db : Db) (nextId : Nat) (ws : WatchFs) (folders : List String) :
      Reachable db nextId →
      Reachable (process_batch ws folders db nextId).1 (process_batch ws folders db nextId).2.1

/-! ## Theorems settling the claims -/

/-- C4: on the sidecar lines `["Foo","フー","https://e-hentai.org/g/1/2",
"Category: Doujinshi","Length: 5 pages","Rating: 4.50","Tags:",
"> artist: jane, doe"]` the metadata parser produces title_en `"Foo"`,
title_jp `"フー"`, category `"Doujinshi"`, page_count `5`, rating `4.5`
(= `9/2`), and the tag list `[("artist","jane"),("artist","doe")]` in that
order. -/
theorem c4_parser_example :
    parse_info_txt
      ["Foo", "フー", "https://e-hentai.org/g/1/2", "Category: Doujinshi",
       "Length: 5 pages", "Rating: 4.50", "Tags:", "> artist: jane, doe"] =
    some
      { title_en := "Foo", title_jp := "フー", url := "https://e-hentai.org/g/1/2",
        category := "Doujinshi", uploader := "", posted := "", language := "",
        file_size := "", page_count := 5, rating := mkRat 9 2, favorited := 0,
        tags := [("artist", "jane"), ("artist", "doe")] } := by
  decide

/-- C9: the natural-order lister splits names into alternating
alphabetic/numeric runs (witnessed by the decomposition of
`"page10.jpg"`), compares numeric runs as integers (first conjunct) and
alphabetic runs case-insensitively (the key of `"PAGE2.JPG"` equals the
key of `"page2.jpg"`); in particular `"2.jpg"` precedes `"10.jpg"`, and
`{"page2.jpg","page10.jpg","page1.jpg"}` lists — from any of its six
enumeration orders — as `page1.jpg, page2.jpg, page10.jpg`. -/
theorem c9_natural_order :
    (∀ m n : Nat, segCmp (.number m) (.number n) = compare m n)
    ∧ natural_sort_key "page10.jpg" = [.text "page", .number 10, .text ".jpg"]
    ∧ natural_sort_key "PAGE2.JPG" = natural_sort_key "page2.jpg"
    ∧ naturalCmp "2.jpg" "10.jpg" = .lt
    ∧ naturalSort ["page2.jpg", "page10.jpg", "page1.jpg"] =
        ["page1.jpg", "page2.jpg", "page10.jpg"]
    ∧ naturalSort ["page2.jpg", "page1.jpg", "page10.jpg"] =
        ["page1.jpg", "page2.jpg", "page10.jpg"]
    ∧ naturalSort ["page10.jpg", "page2.jpg", "page1.jpg"] =
        ["page1.jpg", "page2.jpg", "page10.jpg"]
    ∧ naturalSort ["page10.jpg", "page1.jpg", "page2.jpg"] =
        ["page1.jpg", "page2.jpg", "page10.jpg"]
    ∧ naturalSort ["page1.jpg", "page2.jpg", "page10.jpg"] =
        ["page1.jpg", "page2.jpg", "page10.jpg"]
    ∧ naturalSort ["page1.jpg", "page10.jpg", "page2.jpg"] =
        ["page1.jpg", "page2.jpg", "page10.jpg"] :=
  ⟨fun _ _ => rfl, by decide, by decide, by decide, by decide, by decide,
   by decide, by decide, by decide, by decide⟩

/-- C1 (failing-input evaluation): the sweep of `start_scan` tests
catalog paths with the plain string-prefix check
`path.starts_with(&root_path)`. Scanning root `"/a/root"` over a catalog
holding one record for `"/a/root2/g"` — a folder outside that root, under
the sibling root `"/a/root2"`, as the third conjunct shows (it is not
under the `"/a/root/"` directory) — deletes that record (final catalog
empty, removed count 1), contradicting the claim that entries outside the
scanned root are left untouched. -/
theorem c1_sweep_outside_root_deleted :
    (start_scan "/a/root"
        { folders := [], mtimeOf := fun _ => "", parseOf := fun _ => none,
          thumbOf := fun _ => "" }
        [sampleRow 1 "/a/root2/g" "" "g"] 2).db = []
    ∧ (start_scan "/a/root"
        { folders := [], mtimeOf := fun _ => "", parseOf := fun _ => none,
          thumbOf := fun _ => "" }
        [sampleRow 1 "/a/root2/g" "" "g"] 2).removed = 1
    ∧ strStarts "/a/root2/g" "/a/root/" = false
    ∧ strStarts "/a/root2/g" "/a/root" = true := by
  refine ⟨?_, ?_, by decide, by decide⟩ <;> decide

/-- C2: duplicate detection groups galleries sharing a non-empty URL and,
separately, galleries sharing a case-normalized folder name, reporting
only groups of size ≥ 2 (first two conjuncts); on the concrete catalog of
three galleries sharing URL `"u"` plus one with unique URL `"v"`, it
returns exactly one URL group, of size 3, and the fourth gallery appears
in no URL group (last conjunct: the result is exactly that one group). -/
theorem c2_duplicate_groups :
    (∀ db g, g ∈ find_duplicates_by_url db →
        2 ≤ g.length ∧ ∃ u, ¬ u.data.isEmpty ∧ ∀ r ∈ g, r.meta.url = u)
    ∧ (∀ db g, g ∈ find_duplicates_by_name db →
        2 ≤ g.length ∧ ∃ nm, ∀ r ∈ g, strToLower r.folder_name = nm)
    ∧ find_duplicates_by_url
        [sampleRow 1 "/r/a" "u" "a", sampleRow 2 "/r/b" "u" "b",
         sampleRow 3 "/r/c" "u" "c", sampleRow 4 "/r/d" "v" "d"] =
      [[sampleRow 1 "/r/a" "u" "a", sampleRow 2 "/r/b" "u" "b",
        sampleRow 3 "/r/c" "u" "c"]] := by
  refine ⟨?_, ?_, by decide⟩
  · intro db g hg
    simp only [find_duplicates_by_url, List.mem_filter, List.mem_map,
      decide_eq_true_eq] at hg
    obtain ⟨⟨u, hu, rfl⟩, hlen⟩ := hg
    refine ⟨hlen, u, hu.2, ?_⟩
    intro r hr
    exact of_decide_eq_true (List.mem_filter.1 hr).2
  · intro db g hg
    simp only [find_duplicates_by_name, List.mem_filter, List.mem_map,
      decide_eq_true_eq] at hg
    obtain ⟨⟨nm, _, rfl⟩, hlen⟩ := hg
    refine ⟨hlen, nm, ?_⟩
    intro r hr
    exact of_decide_eq_true (List.mem_filter.1 hr).2

/-- C2 witness: the general soundness conjuncts applied to the concrete
four-row catalog of the claim. -/
theorem c2_duplicate_groups_witness :
    2 ≤ ([sampleRow 1 "/r/a" "u" "a", sampleRow 2 "/r/b" "u" "b",
          sampleRow 3 "/r/c" "u" "c"] : List GalleryRow).length
    ∧ ∃ u, ¬ u.data.isEmpty ∧
        ∀ r ∈ ([sampleRow 1 "/r/a" "u" "a", sampleRow 2 "/r/b" "u" "b",
                sampleRow 3 "/r/c" "u" "c"] : List GalleryRow), r.meta.url = u :=
  c2_duplicate_groups.1
    [sampleRow 1 "/r/a" "u" "a", sampleRow 2 "/r/b" "u" "b",
     sampleRow 3 "/r/c" "u" "c", sampleRow 4 "/r/d" "v" "d"]
    [sampleRow 1 "/r/a" "u" "a", sampleRow 2 "/r/b" "u" "b",
     sampleRow 3 "/r/c" "u" "c"]
    (by rw [c2_duplicate_groups.2.2]; exact List.mem_singleton.2 rfl)

/-- The staleness test, with both modification times readable, is exactly
"cache file exists and thumb mtime ≥ source mtime". -/
theorem thumbFresh_eq (fs : ThumbFs) (src dst : Nat) (hs : fs.srcMtime = some src)
    (hd : fs.cacheMtime = some dst) :
    thumbFresh fs = (fs.cacheFileExists && decide (src ≤ dst)) := by
  unfold thumbFresh
  rw [hs, hd]

/-- The regeneration continuation never reports a reuse. -/
theorem thumbRegen_ne_reused (fs : ThumbFs) (p q : String) :
    thumbRegen fs p ≠ .reused q := by
  unfold thumbRegen
  cases fs.decoded with
  | none => simp
  | some wh =>
    obtain ⟨w, h⟩ := wh
    dsimp only
    split
    · simp
    · split <;> simp

/-- C8: the thumbnail generator returns the cached file — without
decoding or re-encoding the source — exactly when the cache file exists
and its modification time is `≥` the source's (first conjunct, an iff,
under the claim's presuppositions that the cache directory is usable and
both modification times are readable); a source newer than its cached
thumbnail causes regeneration: when decode and write succeed the freshly
generated path is returned (second conjunct), and when the write fails
the program yields "no thumbnail" rather than a reuse (third conjunct,
the `thumbnail.save(...).ok()?` exit); a second call finding the
thumbnail newer than the source returns the same path the first call
generated, as a reuse (fourth conjunct). -/
theorem c8_thumbnail_staleness :
    (∀ (tn : String → String) (source dir : String) (fs : ThumbFs) (src dst : Nat),
        fs.cacheDirOk = true → fs.srcMtime = some src → fs.cacheMtime = some dst →
        (generate_thumbnail tn source dir fs = .reused (dir ++ "/" ++ tn source)
          ↔ fs.cacheFileExists = true ∧ src ≤ dst))
    ∧ (∀ (tn : String → String) (source dir : String) (fs : ThumbFs) (src dst w h : Nat),
        fs.cacheDirOk = true → fs.srcMtime = some src → fs.cacheMtime = some dst →
        dst < src → fs.decoded = some (w, h) → w ≠ 0 → h ≠ 0 → fs.saveOk = true →
        generate_thumbnail tn source dir fs = .generated (dir ++ "/" ++ tn source))
    ∧ (∀ (tn : String → String) (source dir : String) (fs : ThumbFs) (src dst w h : Nat),
        fs.cacheDirOk = true → fs.srcMtime = some src → fs.cacheMtime = some dst →
        dst < src → fs.decoded = some (w, h) → w ≠ 0 → h ≠ 0 → fs.saveOk = false →
        generate_thumbnail tn source dir fs = .failed)
    ∧ (∀ (tn : String → String) (source dir : String) (fs1 fs2 : ThumbFs) (p : String)
        (src dst : Nat),
        generate_thumbnail tn source dir fs1 = .generated p →
        fs2.cacheDirOk = true → fs2.cacheFileExists = true → fs2.srcMtime = some src →
        fs2.cacheMtime = some dst → src ≤ dst →
        generate_thumbnail tn source dir fs2 = .reused p) := by
  refine ⟨?_, ?_, ?_, ?_⟩
  · intro tn source dir fs src dst hdir hs hd
    unfold generate_thumbnail
    rw [if_pos hdir, thumbFresh_eq fs src dst hs hd]
    cases hex : fs.cacheFileExists
    · rw [if_neg (by simp)]
      simp [thumbRegen_ne_reused fs]
    · by_cases hle : src ≤ dst
      · rw [if_pos (by simp [hle])]
        simp [hle]
      · rw [if_neg (by simp [hle])]
        simp [thumbRegen_ne_reused fs, hle]
  · intro tn source dir fs src dst w h hdir hs hd hlt hdec hw hh hsave
    unfold generate_thumbnail
    rw [if_pos hdir, thumbFresh_eq fs src dst hs hd,
      if_neg (by simp [Nat.not_le.2 hlt])]
    unfold thumbRegen
    rw [hdec]
    dsimp only
    rw [if_neg (by simp [hw, hh]), if_pos hsave]
  · intro tn source dir fs src dst w h hdir hs hd hlt hdec hw hh hsave
    unfold generate_thumbnail
    rw [if_pos hdir, thumbFresh_eq fs src dst hs hd,
      if_neg (by simp [Nat.not_le.2 hlt])]
    unfold thumbRegen
    rw [hdec]
    dsimp only
    rw [if_neg (by simp [hw, hh]), if_neg (by rw [hsave]; simp)]
  · intro tn source dir fs1 fs2 p src dst h1 hdir hex hs hd hle
    have hp : p = dir ++ "/" ++ tn source := by
      unfold generate_thumbnail at h1
      by_cases hdir1 : fs1.cacheDirOk = true
      · rw [if_pos hdir1] at h1
        by_cases hf : thumbFresh fs1 = true
        · rw [if_pos hf] at h1
          exact absurd h1 (by simp)
        · rw [if_neg hf] at h1
          unfold thumbRegen at h1
          revert h1
          cases fs1.decoded with
          | none => simp
          | some wh =>
            obtain ⟨w, hgt⟩ := wh
            dsimp only
            split
            · simp
            · split
              · intro h1
                injection h1 with h1
                exact h1.symm
              · simp
      · rw [if_neg hdir1] at h1
        exact absurd h1 (by simp)
    subst hp
    unfold generate_thumbnail
    rw [if_pos hdir,
      if_pos (by rw [thumbFresh_eq fs2 src dst hs hd]; simp [hex, hle])]

/-- C8 witness: the staleness iff, the successful regeneration, the
write-failure outcome, and the second-call reuse, each at a concrete
cache state. -/
theorem c8_thumbnail_staleness_witness :
    (generate_thumbnail (fun s => s ++ ".jpg") "img" "cache"
        { cacheDirOk := true, cacheFileExists := true, cacheMtime := some 5,
          srcMtime := some 3, decoded := some (4, 4), saveOk := true } =
        .reused ("cache" ++ "/" ++ ("img" ++ ".jpg"))
      ↔ true = true ∧ 3 ≤ 5)
    ∧ generate_thumbnail (fun s => s ++ ".jpg") "img" "cache"
        { cacheDirOk := true, cacheFileExists := true, cacheMtime := some 2,
          srcMtime := some 3, decoded := some (4, 4), saveOk := true } =
        .generated ("cache" ++ "/" ++ ("img" ++ ".jpg"))
    ∧ generate_thumbnail (fun s => s ++ ".jpg") "img" "cache"
        { cacheDirOk := true, cacheFileExists := true, cacheMtime := some 2,
          srcMtime := some 3, decoded := some (4, 4), saveOk := false } = .failed
    ∧ generate_thumbnail (fun s => s ++ ".jpg") "img" "cache"
        { cacheDirOk := true, cacheFileExists := true, cacheMtime := some 9,
          srcMtime := some 3, decoded := none, saveOk := true } =
        .reused ("cache" ++ "/" ++ ("img" ++ ".jpg")) :=
  ⟨c8_thumbnail_staleness.1 _ "img" "cache" _ 3 5 rfl rfl rfl,
   c8_thumbnail_staleness.2.1 _ "img" "cache" _ 3 2 4 4 rfl rfl rfl (by decide) rfl
     (by decide) (by decide) rfl,
   c8_thumbnail_staleness.2.2.1 _ "img" "cache" _ 3 2 4 4 rfl rfl rfl (by decide) rfl
     (by decide) (by decide) rfl,
   c8_thumbnail_staleness.2.2.2 _ "img" "cache"
     { cacheDirOk := true, cacheFileExists := true, cacheMtime := some 2,
       srcMtime := some 3, decoded := some (4, 4), saveOk := true }
     { cacheDirOk := true, cacheFileExists := true, cacheMtime := some 9,
       srcMtime := some 3, decoded := none, saveOk := true } _ 3 9
     (c8_thumbnail_staleness.2.1 _ "img" "cache" _ 3 2 4 4 rfl rfl rfl (by decide) rfl
       (by decide) (by decide) rfl)
     rfl rfl rfl rfl (by decide)⟩

/-! ### Store lemmas -/

/-- Lookup in the empty store. -/
theorem getRowByPath_nil (q : String) : getRowByPath [] q = none := rfl

/-- Lookup unfolding on a non-empty store. -/
theorem getRowByPath_cons (r : GalleryRow) (rest : Db) (q : String) :
    getRowByPath (r :: rest) q =
      if r.path = q then some r else getRowByPath rest q := rfl

/-- A successful path lookup returns a row carrying that path. -/
theorem lookup_path {db : Db} {q : String} {r : GalleryRow}
    (h : getRowByPath db q = some r) : r.path = q := by
  induction db with
  | nil => exact absurd h (by simp [getRowByPath_nil])
  | cons a rest ih =>
    rw [getRowByPath_cons] at h
    by_cases ha : a.path = q
    · rw [if_pos ha] at h
      cases h
      exact ha
    · rw [if_neg ha] at h
      exact ih h

/-- The `DO UPDATE` arm never changes a row's path. -/
theorem updRow_path (path : String) (parsed : ParsedGallery) (t m : String)
    (r : GalleryRow) : (updRow path parsed t m r).path = r.path := by
  unfold updRow
  split <;> rfl

/-- Lookup commutes with a row-wise rewrite that preserves paths. -/
theorem lookup_map_update (db : Db) (q : String) (g : GalleryRow → GalleryRow)
    (hg : ∀ r, (g r).path = r.path) :
    getRowByPath (db.map g) q = (getRowByPath db q).map g := by
  induction db with
  | nil => rfl
  | cons r rest ih =>
    rw [List.map_cons, getRowByPath_cons, getRowByPath_cons]
    by_cases h : r.path = q
    · rw [if_pos (by rw [hg r]; exact h), if_pos h]
      rfl
    · rw [if_neg (by rw [hg r]; exact h), if_neg h]
      exact ih

/-- Appending a row with a different path does not change a lookup. -/
theorem lookup_append_ne (db : Db) (row : GalleryRow) (q : String)
    (hne : row.path ≠ q) :
    getRowByPath (db ++ [row]) q = getRowByPath db q := by
  induction db with
  | nil => simp [getRowByPath_nil, getRowByPath_cons, hne]
  | cons r rest ih =>
    rw [List.cons_append, getRowByPath_cons, getRowByPath_cons]
    by_cases h : r.path = q
    · rw [if_pos h, if_pos h]
    · rw [if_neg h, if_neg h]
      exact ih

/-- Appending a row to a store not containing its path makes it findable. -/
theorem lookup_append_self (db : Db) (row : GalleryRow)
    (h : getRowByPath db row.path = none) :
    getRowByPath (db ++ [row]) row.path = some row := by
  induction db with
  | nil => simp [getRowByPath_nil, getRowByPath_cons]
  | cons r rest ih =>
    rw [getRowByPath_cons] at h
    rw [List.cons_append, getRowByPath_cons]
    by_cases hr : r.path = row.path
    · rw [if_pos hr] at h
      exact absurd h (by simp)
    · rw [if_neg hr] at h
      rw [if_neg hr]
      exact ih h

/-- A path is absent from the stored paths iff its lookup fails. -/
theorem lookup_none_iff (db : Db) (q : String) :
    getRowByPath db q = none ↔ q ∉ get_all_gallery_paths db := by
  induction db with
  | nil => simp [getRowByPath_nil, get_all_gallery_paths]
  | cons r rest ih =>
    unfold get_all_gallery_paths at ih ⊢
    rw [getRowByPath_cons, List.map_cons, List.mem_cons]
    by_cases h : r.path = q
    · rw [if_pos h]
      simp [h]
    · rw [if_neg h]
      constructor
      · intro hn hmem
        rcases hmem with hq | hq
        · exact h hq.symm
        · exact (ih.1 hn) hq
      · intro hnm
        exact ih.2 fun hq => hnm (Or.inr hq)

/-- Component form of the upsert when the path is already catalogued. -/
theorem upsert_db_of_exists (db : Db) (n : Nat) (path : String)
    (parsed : ParsedGallery) (t m : String)
    (hex : (getRowByPath db path).isSome) :
    (upsert_gallery db n path parsed t m).1 = db.map (updRow path parsed t m) := by
  unfold upsert_gallery
  rw [if_pos hex]

/-- An upsert of an already-catalogued path keeps the next fresh id. -/
theorem upsert_nextId_of_exists (db : Db) (n : Nat) (path : String)
    (parsed : ParsedGallery) (t m : String)
    (hex : (getRowByPath db path).isSome) :
    (upsert_gallery db n path parsed t m).2 = n := by
  unfold upsert_gallery
  rw [if_pos hex]

/-- Component form of the upsert when the path is not yet catalogued. -/
theorem upsert_db_of_absent (db : Db) (n : Nat) (path : String)
    (parsed : ParsedGallery) (t m : String)
    (hnone : getRowByPath db path = none) :
    (upsert_gallery db n path parsed t m).1 = db ++ [newRow n path parsed t m] := by
  unfold upsert_gallery
  rw [if_neg (by rw [hnone]; simp)]

/-- An upsert leaves lookups of every other path unchanged. -/
theorem lookup_upsert_ne (db : Db) (n : Nat) (path q : String)
    (parsed : ParsedGallery) (t m : String) (hq : q ≠ path) :
    getRowByPath (upsert_gallery db n path parsed t m).1 q = getRowByPath db q := by
  by_cases hex : (getRowByPath db path).isSome
  · rw [upsert_db_of_exists db n path parsed t m hex,
      lookup_map_update db q _ (updRow_path path parsed t m)]
    cases hl : getRowByPath db q with
    | none => rfl
    | some r =>
      have hr : r.path = q := lookup_path hl
      show some (updRow path parsed t m r) = some r
      unfold updRow
      rw [if_neg (by rw [hr]; exact hq)]
  · rw [upsert_db_of_absent db n path parsed t m (Option.not_isSome_iff_eq_none.1 hex)]
    exact lookup_append_ne db _ q (fun hp => hq hp.symm)

/-- After an upsert, the upserted path holds exactly the freshly written
row (parsed fields, thumbnail, derived folder and parent, marker), under
some id. -/
theorem lookup_upsert_self (db : Db) (n : Nat) (path : String)
    (parsed : ParsedGallery) (t m : String) :
    ∃ i, getRowByPath (upsert_gallery db n path parsed t m).1 path =
      some ⟨i, path, parsed, t, fileNameOf path, parentOf path, m⟩ := by
  by_cases hex : (getRowByPath db path).isSome
  · obtain ⟨r, hr⟩ := Option.isSome_iff_exists.1 hex
    have hpath : r.path = path := lookup_path hr
    obtain ⟨i, p, me, th, fn, pp, im⟩ := r
    simp only at hpath
    subst hpath
    refine ⟨i, ?_⟩
    rw [upsert_db_of_exists db n p parsed t m hex,
      lookup_map_update db p _ (updRow_path p parsed t m), hr]
    show some (updRow p parsed t m ⟨i, p, me, th, fn, pp, im⟩) = _
    unfold updRow
    rw [if_pos rfl]
  · refine ⟨n, ?_⟩
    rw [upsert_db_of_absent db n path parsed t m (Option.not_isSome_iff_eq_none.1 hex)]
    exact lookup_append_self db _ (Option.not_isSome_iff_eq_none.1 hex)

/-- An upsert of an already-catalogued path keeps the row count. -/
theorem upsert_length_of_exists (db : Db) (n : Nat) (path : String)
    (parsed : ParsedGallery) (t m : String)
    (hex : (getRowByPath db path).isSome) :
    (upsert_gallery db n path parsed t m).1.length = db.length := by
  rw [upsert_db_of_exists db n path parsed t m hex]
  exact List.length_map _ _

/-- An upsert of an already-catalogued path updates that row in place:
the id stored at the path is unchanged. -/
theorem upsert_id_stable (db : Db) (n : Nat) (path : String)
    (parsed : ParsedGallery) (t m : String) (r : GalleryRow)
    (h : getRowByPath db path = some r) :
    ∃ r', getRowByPath (upsert_gallery db n path parsed t m).1 path = some r'
      ∧ r'.id = r.id := by
  have hex : (getRowByPath db path).isSome := by rw [h]; rfl
  have hpath : r.path = path := lookup_path h
  obtain ⟨i, p, me, th, fn, pp, im⟩ := r
  simp only at hpath
  subst hpath
  rw [upsert_db_of_exists db n p parsed t m hex,
    lookup_map_update db p _ (updRow_path p parsed t m), h]
  refine ⟨updRow p parsed t m ⟨i, p, me, th, fn, pp, im⟩, rfl, ?_⟩
  unfold updRow
  rw [if_pos rfl]

/-- Deleting a path removes it from the lookup. -/
theorem lookup_delete_self (db : Db) (path : String) :
    getRowByPath (delete_gallery_by_path db path) path = none := by
  induction db with
  | nil => rfl
  | cons r rest ih =>
    unfold delete_gallery_by_path at ih ⊢
    rw [List.filter_cons]
    by_cases h : r.path = path
    · rw [if_neg (by simp [h])]
      exact ih
    · rw [if_pos (by simp [h]), getRowByPath_cons, if_neg h]
      exact ih

/-- Deleting a path leaves lookups of every other path unchanged. -/
theorem lookup_delete_ne (db : Db) (path q : String) (hq : q ≠ path) :
    getRowByPath (delete_gallery_by_path db path) q = getRowByPath db q := by
  induction db with
  | nil => rfl
  | cons r rest ih =>
    unfold delete_gallery_by_path at ih ⊢
    rw [List.filter_cons, getRowByPath_cons]
    by_cases h : r.path = path
    · rw [if_neg (by simp [h]), if_neg (by rw [h]; exact fun hc => hq hc.symm)]
      exact ih
    · rw [if_pos (by simp [h]), getRowByPath_cons]
      by_cases hr : r.path = q
      · rw [if_pos hr, if_pos hr]
      · rw [if_neg hr, if_neg hr]
        exact ih

/-! ### Path uniqueness through every mutation -/

/-- The `DO UPDATE` arm leaves the stored path list unchanged. -/
theorem paths_map_updRow (db : Db) (path : String) (parsed : ParsedGallery)
    (t m : String) :
    get_all_gallery_paths (db.map (updRow path parsed t m)) =
      get_all_gallery_paths db := by
  unfold get_all_gallery_paths
  rw [List.map_map]
  refine List.map_congr_left fun r _ => ?_
  show (updRow path parsed t m r).path = r.path
  exact updRow_path path parsed t m r

/-- An upsert preserves duplicate-freedom of the stored paths. -/
theorem nodup_upsert (db : Db) (n : Nat) (path : String) (parsed : ParsedGallery)
    (t m : String) (h : (get_all_gallery_paths db).Nodup) :
    (get_all_gallery_paths (upsert_gallery db n path parsed t m).1).Nodup := by
  by_cases hex : (getRowByPath db path).isSome
  · rw [upsert_db_of_exists db n path parsed t m hex, paths_map_updRow]
    exact h
  · have hnone := Option.not_isSome_iff_eq_none.1 hex
    rw [upsert_db_of_absent db n path parsed t m hnone]
    unfold get_all_gallery_paths
    rw [List.map_append]
    refine List.Nodup.append h (by simp) ?_
    intro p hp hp'
    simp only [List.map_cons, List.map_nil, List.mem_singleton] at hp'
    rw [hp'] at hp
    exact (lookup_none_iff db path).1 hnone (by exact hp)

/-- A deletion preserves duplicate-freedom of the stored paths. -/
theorem nodup_delete (db : Db) (path : String)
    (h : (get_all_gallery_paths db).Nodup) :
    (get_all_gallery_paths (delete_gallery_by_path db path)).Nodup := by
  unfold get_all_gallery_paths delete_gallery_by_path
  exact h.sublist ((List.filter_sublist db).map _)

/-- A scan-loop step preserves duplicate-freedom of the stored paths. -/
theorem nodup_scanFolder (fs : ScanFs) (acc : Db × Nat × Nat) (folder : String)
    (h : (get_all_gallery_paths acc.1).Nodup) :
    (get_all_gallery_paths (scanFolder fs acc folder).1).Nodup := by
  unfold scanFolder
  split
  · split
    · exact nodup_upsert _ _ _ _ _ _ h
    · exact h
  · exact h

/-- A sweep step preserves duplicate-freedom of the stored paths. -/
theorem nodup_sweepStep (root : String) (scanned : List String) (acc : Db × Nat)
    (p : String) (h : (get_all_gallery_paths acc.1).Nodup) :
    (get_all_gallery_paths (sweepStep root scanned acc p).1).Nodup := by
  unfold sweepStep
  split
  · exact nodup_delete _ _ h
  · exact h

/-- A watcher reconciliation step preserves duplicate-freedom. -/
theorem nodup_reconcileFolder (ws : WatchFs) (acc : Db × Nat × List WatchEvent)
    (folder : String) (h : (get_all_gallery_paths acc.1).Nodup) :
    (get_all_gallery_paths (reconcileFolder ws acc folder).1).Nodup := by
  unfold reconcileFolder
  split
  · split
    · exact nodup_upsert _ _ _ _ _ _ h
    · exact h
  · split
    · exact nodup_delete _ _ h
    · exact h

/-- The scan loop preserves duplicate-freedom of the stored paths. -/
theorem nodup_scanFold (fs : ScanFs) (l : List String) (acc : Db × Nat × Nat)
    (h : (get_all_gallery_paths acc.1).Nodup) :
    (get_all_gallery_paths (l.foldl (scanFolder fs) acc).1).Nodup := by
  induction l generalizing acc with
  | nil => exact h
  | cons f rest ih =>
    rw [List.foldl_cons]
    exact ih _ (nodup_scanFolder fs acc f h)

/-- The sweep loop preserves duplicate-freedom of the stored paths. -/
theorem nodup_sweepFold (root : String) (scanned existing : List String)
    (acc : Db × Nat) (h : (get_all_gallery_paths acc.1).Nodup) :
    (get_all_gallery_paths (existing.foldl (sweepStep root scanned) acc).1).Nodup := by
  induction existing generalizing acc with
  | nil => exact h
  | cons p rest ih =>
    rw [List.foldl_cons]
    exact ih _ (nodup_sweepStep root scanned acc p h)

/-- A watcher batch preserves duplicate-freedom of the stored paths. -/
theorem nodup_batchFold (ws : WatchFs) (l : List String)
    (acc : Db × Nat × List WatchEvent) (h : (get_all_gallery_paths acc.1).Nodup) :
    (get_all_gallery_paths (l.foldl (reconcileFolder ws) acc).1).Nodup := by
  induction l generalizing acc with
  | nil => exact h
  | cons f rest ih =>
    rw [List.foldl_cons]
    exact ih _ (nodup_reconcileFolder ws acc f h)

/-- Every reachable store has duplicate-free paths. -/
theorem reachable_paths_nodup {db : Db} {n : Nat} (h : Reachable db n) :
    (get_all_gallery_paths db).Nodup := by
  induction h with
  | init => simp [get_all_gallery_paths]
  | upsert db n path parsed t m _ ih => exact nodup_upsert db n path parsed t m ih
  | delete db n path _ ih => exact nodup_delete db path ih
  | scan db n root fs _ ih =>
    unfold start_scan sweep
    exact nodup_sweepFold _ _ _ _ (nodup_scanFold _ _ _ ih)
  | batch db n ws folders _ ih => exact nodup_batchFold ws folders _ ih

/-- C5: every reachable catalog state holds at most one record per folder
path — the stored paths are duplicate-free whichever operations (upserts,
deletions, scan passes, watcher batches) produced the state — and
upserting an already-catalogued path updates the row in place: the next
fresh id is not consumed, the row count is unchanged, and the id stored at
the path is unchanged, so a record is never deleted and re-created by an
upsert. -/
theorem c5_path_unique_id_stable :
    (∀ (db : Db) (n : Nat), Reachable db n → (get_all_gallery_paths db).Nodup)
    ∧ (∀ (db : Db) (n : Nat) (path : String) (parsed : ParsedGallery)
        (t m : String) (r : GalleryRow), getRowByPath db path = some r →
        (upsert_gallery db n path parsed t m).2 = n
        ∧ (upsert_gallery db n path parsed t m).1.length = db.length
        ∧ ∃ r', getRowByPath (upsert_gallery db n path parsed t m).1 path = some r'
            ∧ r'.id = r.id) := by
  constructor
  · intro db n h
    exact reachable_paths_nodup h
  · intro db n path parsed t m r h
    have hex : (getRowByPath db path).isSome := by rw [h]; rfl
    exact ⟨upsert_nextId_of_exists db n path parsed t m hex,
      upsert_length_of_exists db n path parsed t m hex,
      upsert_id_stable db n path parsed t m r h⟩

/-- C5 witness: the invariant on a concrete reachable state (one upsert
into the fresh store), and in-place update of a concrete catalogued path. -/
theorem c5_path_unique_id_stable_witness :
    (get_all_gallery_paths
        (upsert_gallery [] 1 "/r/g" (sampleMeta "u") "" "1").1).Nodup
    ∧ ((upsert_gallery [sampleRow 7 "/r/g" "u" "g"] 9 "/r/g" (sampleMeta "v") "" "2").2 = 9
        ∧ (upsert_gallery [sampleRow 7 "/r/g" "u" "g"] 9 "/r/g" (sampleMeta "v") "" "2").1.length
            = [sampleRow 7 "/r/g" "u" "g"].length
        ∧ ∃ r', getRowByPath
              (upsert_gallery [sampleRow 7 "/r/g" "u" "g"] 9 "/r/g" (sampleMeta "v") "" "2").1
              "/r/g" = some r' ∧ r'.id = (sampleRow 7 "/r/g" "u" "g").id) :=
  ⟨c5_path_unique_id_stable.1 _ _
      (Reachable.upsert [] 1 "/r/g" (sampleMeta "u") "" "1" Reachable.init),
   c5_path_unique_id_stable.2 [sampleRow 7 "/r/g" "u" "g"] 9 "/r/g" (sampleMeta "v") "" "2"
      (sampleRow 7 "/r/g" "u" "g") (by decide)⟩


/-! ### Scan-pass lemmas -/

/-- Definitional component form of `start_scan` (zeta-reduced). -/
theorem start_scan_eq (root : String) (fs : ScanFs) (db : Db) (n : Nat) :
    start_scan root fs db n =
      { db := ((get_all_gallery_paths db).foldl (sweepStep root fs.folders)
            ((fs.folders.foldl (scanFolder fs) (db, n, 0)).1, 0)).1
        nextId := (fs.folders.foldl (scanFolder fs) (db, n, 0)).2.1
        upserts := (fs.folders.foldl (scanFolder fs) (db, n, 0)).2.2
        removed := ((get_all_gallery_paths db).foldl (sweepStep root fs.folders)
            ((fs.folders.foldl (scanFolder fs) (db, n, 0)).1, 0)).2 } := rfl

/-- Definitional form of the final catalog of `start_scan`. -/
theorem start_scan_db (root : String) (fs : ScanFs) (db : Db) (n : Nat) :
    (start_scan root fs db n).db =
      ((get_all_gallery_paths db).foldl (sweepStep root fs.folders)
        ((fs.folders.foldl (scanFolder fs) (db, n, 0)).1, 0)).1 := rfl

/-- A folder whose stored marker matches the sidecar marker is not due for
re-indexing. -/
theorem scanNeedsUpdate_false (fs : ScanFs) (db : Db) (f : String)
    (h : get_info_modified db f = some (fs.mtimeOf f)) :
    scanNeedsUpdate fs db f = false := by
  unfold scanNeedsUpdate
  rw [h]
  exact bne_self_eq_false _

/-- A folder whose stored marker differs from the sidecar marker is due
for re-indexing. -/
theorem scanNeedsUpdate_true_of_diff (fs : ScanFs) (db : Db) (f : String) (m : String)
    (h : get_info_modified db f = some m) (hne : m ≠ fs.mtimeOf f) :
    scanNeedsUpdate fs db f = true := by
  unfold scanNeedsUpdate
  rw [h]
  exact bne_iff_ne.2 hne

/-- A scan step on a folder not due for re-indexing changes nothing. -/
theorem scanFolder_skip (fs : ScanFs) (acc : Db × Nat × Nat) (folder : String)
    (h : scanNeedsUpdate fs acc.1 folder = false) :
    scanFolder fs acc folder = acc := by
  unfold scanFolder
  rw [h]
  rfl

/-- A scan step on a due folder whose sidecar fails to parse changes
nothing. -/
theorem scanFolder_parse_none (fs : ScanFs) (acc : Db × Nat × Nat) (folder : String)
    (hn : scanNeedsUpdate fs acc.1 folder = true) (hp : fs.parseOf folder = none) :
    scanFolder fs acc folder = acc := by
  unfold scanFolder
  rw [hn, hp]
  rfl

/-- A scan step on a due folder whose sidecar parses performs exactly the
parse→thumbnail→upsert path and counts one upsert. -/
theorem scanFolder_upsert (fs : ScanFs) (acc : Db × Nat × Nat) (folder : String)
    (parsed : ParsedGallery)
    (hn : scanNeedsUpdate fs acc.1 folder = true) (hp : fs.parseOf folder = some parsed) :
    scanFolder fs acc folder =
      ((upsert_gallery acc.1 acc.2.1 folder parsed (fs.thumbOf folder) (fs.mtimeOf folder)).1,
       (upsert_gallery acc.1 acc.2.1 folder parsed (fs.thumbOf folder) (fs.mtimeOf folder)).2,
       acc.2.2 + 1) := by
  unfold scanFolder
  rw [hn, hp]
  rfl

/-- The scan loop over folders whose markers all match is the identity. -/
theorem scanFold_unchanged (fs : ScanFs) (l : List String) (db : Db) (n u : Nat)
    (h : ∀ f ∈ l, get_info_modified db f = some (fs.mtimeOf f)) :
    l.foldl (scanFolder fs) (db, n, u) = (db, n, u) := by
  induction l with
  | nil => rfl
  | cons f rest ih =>
    rw [List.foldl_cons,
      scanFolder_skip fs (db, n, u) f (scanNeedsUpdate_false fs db f (h f (by simp)))]
    exact ih fun f' hf' => h f' (List.mem_cons_of_mem _ hf')

/-- A sweep step on a path that was encountered (or fails the prefix
test) changes nothing. -/
theorem sweepStep_skip (root : String) (scanned : List String) (acc : Db × Nat)
    (p : String) (h : ¬ (¬ scanned.contains p ∧ strStarts p root)) :
    sweepStep root scanned acc p = acc := by
  unfold sweepStep
  rw [if_neg h]

/-- The sweep loop deletes nothing when every path passing the prefix test
was encountered this pass. -/
theorem sweepFold_unchanged (root : String) (scanned existing : List String)
    (acc : Db × Nat)
    (h : ∀ p ∈ existing, strStarts p root = true → p ∈ scanned) :
    existing.foldl (sweepStep root scanned) acc = acc := by
  induction existing generalizing acc with
  | nil => rfl
  | cons p rest ih =>
    have hskip : sweepStep root scanned acc p = acc := by
      apply sweepStep_skip
      rintro ⟨hnc, hpre⟩
      exact hnc (List.elem_iff.2 (h p (by simp) hpre))
    rw [List.foldl_cons, hskip]
    exact ih acc fun q hq => h q (List.mem_cons_of_mem _ hq)

/-- The scan loop never touches a folder whose sidecar fails to parse:
its catalog record (present or absent) survives the loop. -/
theorem scanFold_lookup_parse_none (fs : ScanFs) (l : List String)
    (acc : Db × Nat × Nat) (q : String) (hq : fs.parseOf q = none) :
    getRowByPath (l.foldl (scanFolder fs) acc).1 q = getRowByPath acc.1 q := by
  induction l generalizing acc with
  | nil => rfl
  | cons f rest ih =>
    rw [List.foldl_cons, ih (scanFolder fs acc f)]
    cases hn : scanNeedsUpdate fs acc.1 f with
    | false => rw [scanFolder_skip fs acc f hn]
    | true =>
      cases hp : fs.parseOf f with
      | none => rw [scanFolder_parse_none fs acc f hn hp]
      | some parsed =>
        rw [scanFolder_upsert fs acc f parsed hn hp]
        have hfq : q ≠ f := by
          intro h
          rw [h, hp] at hq
          cases hq
        exact lookup_upsert_ne acc.1 acc.2.1 f q parsed _ _ hfq

/-- The sweep loop never deletes a path that was encountered this pass. -/
theorem sweepFold_lookup_scanned (root : String) (scanned existing : List String)
    (acc : Db × Nat) (q : String) (hq : q ∈ scanned) :
    getRowByPath (existing.foldl (sweepStep root scanned) acc).1 q =
      getRowByPath acc.1 q := by
  induction existing generalizing acc with
  | nil => rfl
  | cons p rest ih =>
    rw [List.foldl_cons, ih (sweepStep root scanned acc p)]
    unfold sweepStep
    split
    · next hcond =>
      have hpq : q ≠ p := by
        intro h
        exact hcond.1 (List.elem_iff.2 (h ▸ hq))
      exact lookup_delete_ne acc.1 p q hpq
    · rfl

/-- C3: during a scan a folder is re-parsed, re-thumbnailed and
re-upserted exactly when its stored sidecar marker differs or no record
exists. First conjunct: re-scanning a tree whose markers all match the
stored ones (and whose catalogued paths under the root were all
encountered) performs zero upserts and zero deletions and returns the
catalog unchanged. Second conjunct: when exactly one folder's marker
differs (and its sidecar parses), the scan performs exactly one upsert —
the parse→thumbnail→upsert of that folder — and nothing else: the final
catalog is precisely the one upsert applied to the original. -/
theorem c3_change_detection :
    (∀ (root : String) (fs : ScanFs) (db : Db) (n : Nat),
        (∀ f ∈ fs.folders, get_info_modified db f = some (fs.mtimeOf f)) →
        (∀ p ∈ get_all_gallery_paths db, strStarts p root = true → p ∈ fs.folders) →
        start_scan root fs db n = ⟨db, n, 0, 0⟩)
    ∧ (∀ (root : String) (fs : ScanFs) (db : Db) (n : Nat) (g : String) (m : String)
        (parsed : ParsedGallery),
        fs.folders.Nodup → g ∈ fs.folders →
        get_info_modified db g = some m → m ≠ fs.mtimeOf g →
        fs.parseOf g = some parsed →
        (∀ f ∈ fs.folders, f ≠ g → get_info_modified db f = some (fs.mtimeOf f)) →
        (∀ p ∈ get_all_gallery_paths db, strStarts p root = true → p ∈ fs.folders) →
        start_scan root fs db n =
          ⟨(upsert_gallery db n g parsed (fs.thumbOf g) (fs.mtimeOf g)).1, n, 1, 0⟩) := by
  constructor
  · intro root fs db n hall hcover
    rw [start_scan_eq,
      scanFold_unchanged fs fs.folders db n 0 hall,
      sweepFold_unchanged root fs.folders (get_all_gallery_paths db) _ hcover]
  · intro root fs db n g m parsed hnd hg hstored hne hparse hothers hcover
    have hex : (getRowByPath db g).isSome := by
      unfold get_info_modified at hstored
      cases hl : getRowByPath db g with
      | none => rw [hl] at hstored; cases hstored
      | some r => rfl
    obtain ⟨l1, l2, hsplit⟩ := List.append_of_mem hg
    rw [start_scan_eq, hsplit]
    rw [hsplit] at hnd hothers hcover
    rw [List.nodup_append] at hnd
    obtain ⟨hnd1, hnd2, hdisj⟩ := hnd
    have hg1 : g ∉ l1 := fun hmem => hdisj hmem (List.mem_cons_self g l2)
    have hg2 : g ∉ l2 := (List.nodup_cons.1 hnd2).1
    rw [List.foldl_append, List.foldl_cons]
    rw [scanFold_unchanged fs l1 db n 0
      (fun f hf => hothers f (List.mem_append.2 (Or.inl hf)) (fun hfg => hg1 (hfg ▸ hf)))]
    rw [scanFolder_upsert fs (db, n, 0) g parsed
      (scanNeedsUpdate_true_of_diff fs db g m hstored hne) hparse]
    rw [upsert_nextId_of_exists db n g parsed (fs.thumbOf g) (fs.mtimeOf g) hex]
    rw [scanFold_unchanged fs l2
      (upsert_gallery db n g parsed (fs.thumbOf g) (fs.mtimeOf g)).1 n (0 + 1)
      (fun f hf => by
        have hfg : f ≠ g := fun hfg => hg2 (hfg ▸ hf)
        unfold get_info_modified
        rw [lookup_upsert_ne db n g f parsed (fs.thumbOf g) (fs.mtimeOf g) hfg]
        exact hothers f (List.mem_append.2 (Or.inr (List.mem_cons_of_mem g hf))) hfg)]
    rw [sweepFold_unchanged root (l1 ++ g :: l2) (get_all_gallery_paths db) _ hcover]

/-- C3 witness: an unchanged one-folder tree re-scans to the identical
catalog with zero upserts and deletions, and the same tree with an altered
marker re-scans to exactly one upsert of that folder. -/
theorem c3_change_detection_witness :
    start_scan "/r"
        { folders := ["/r/g"], mtimeOf := fun _ => "1",
          parseOf := fun _ => some (sampleMeta "u"), thumbOf := fun _ => "" }
        [⟨3, "/r/g", sampleMeta "u", "", "g", "/r", "1"⟩] 5 =
      ⟨[⟨3, "/r/g", sampleMeta "u", "", "g", "/r", "1"⟩], 5, 0, 0⟩
    ∧ start_scan "/r"
        { folders := ["/r/g"], mtimeOf := fun _ => "2",
          parseOf := fun _ => some (sampleMeta "u"), thumbOf := fun _ => "" }
        [⟨3, "/r/g", sampleMeta "u", "", "g", "/r", "1"⟩] 5 =
      ⟨(upsert_gallery [⟨3, "/r/g", sampleMeta "u", "", "g", "/r", "1"⟩] 5 "/r/g"
          (sampleMeta "u") "" "2").1, 5, 1, 0⟩ :=
  ⟨c3_change_detection.1 "/r" _ _ 5 (by decide) (by decide),
   c3_change_detection.2 "/r" _ _ 5 "/r/g" "1" (sampleMeta "u")
     (by decide) (by decide) (by decide) (by decide) rfl
     (by decide) (by decide)⟩

/-! ### Watcher-batch lemmas -/

/-- A reconciliation of a folder whose sidecar exists and parses is the
scanner's upsert path plus an `"upsert"` notification. -/
theorem reconcile_upsert (ws : WatchFs) (acc : Db × Nat × List WatchEvent)
    (folder : String) (parsed : ParsedGallery)
    (hs : ws.sidecar folder = true) (hp : ws.parseOf folder = some parsed) :
    reconcileFolder ws acc folder =
      ((upsert_gallery acc.1 acc.2.1 folder parsed (ws.thumbOf folder) (ws.mtimeOf folder)).1,
       (upsert_gallery acc.1 acc.2.1 folder parsed (ws.thumbOf folder) (ws.mtimeOf folder)).2,
       acc.2.2 ++ [⟨"upsert", folder⟩]) := by
  unfold reconcileFolder
  rw [hs, hp]
  rfl

/-- A reconciliation of a folder whose sidecar exists but fails to parse
changes nothing. -/
theorem reconcile_parse_none (ws : WatchFs) (acc : Db × Nat × List WatchEvent)
    (folder : String) (hs : ws.sidecar folder = true) (hp : ws.parseOf folder = none) :
    reconcileFolder ws acc folder = acc := by
  unfold reconcileFolder
  rw [hs, hp]
  rfl

/-- A reconciliation of a folder with no sidecar but a stored record
deletes the record and notifies. -/
theorem reconcile_delete (ws : WatchFs) (acc : Db × Nat × List WatchEvent)
    (folder : String) (hs : ws.sidecar folder = false)
    (hsome : (getRowByPath acc.1 folder).isSome = true) :
    reconcileFolder ws acc folder =
      (delete_gallery_by_path acc.1 folder, acc.2.1, acc.2.2 ++ [⟨"delete", folder⟩]) := by
  unfold reconcileFolder
  rw [hs, if_neg (by simp), if_pos hsome]

/-- A reconciliation of a folder with no sidecar and no stored record
changes nothing. -/
theorem reconcile_absent (ws : WatchFs) (acc : Db × Nat × List WatchEvent)
    (folder : String) (hs : ws.sidecar folder = false)
    (hnone : getRowByPath acc.1 folder = none) :
    reconcileFolder ws acc folder = acc := by
  unfold reconcileFolder
  rw [hs, if_neg (by simp), if_neg (by rw [hnone]; simp)]

/-- Reconciliation steps only append notifications. -/
theorem reconcile_events_mono (ws : WatchFs) (acc : Db × Nat × List WatchEvent)
    (folder : String) (e : WatchEvent) (he : e ∈ acc.2.2) :
    e ∈ (reconcileFolder ws acc folder).2.2 := by
  unfold reconcileFolder
  split
  · split
    · exact List.mem_append_left _ he
    · exact he
  · split
    · exact List.mem_append_left _ he
    · exact he

/-- The batch loop only appends notifications. -/
theorem batchFold_events_mono (ws : WatchFs) (l : List String)
    (acc : Db × Nat × List WatchEvent) (e : WatchEvent) (he : e ∈ acc.2.2) :
    e ∈ (l.foldl (reconcileFolder ws) acc).2.2 := by
  induction l generalizing acc with
  | nil => exact he
  | cons f rest ih =>
    rw [List.foldl_cons]
    exact ih _ (reconcile_events_mono ws acc f e he)

/-- A reconciliation step leaves a path's lookup unchanged when the step
is for a different folder, or for this folder with a present-but-unparsable
sidecar. -/
theorem reconcile_lookup_preserved (ws : WatchFs) (acc : Db × Nat × List WatchEvent)
    (folder q : String)
    (hcase : folder = q → ws.sidecar q = true ∧ ws.parseOf q = none) :
    getRowByPath (reconcileFolder ws acc folder).1 q = getRowByPath acc.1 q := by
  by_cases hf : folder = q
  · obtain ⟨hs, hp⟩ := hcase hf
    subst hf
    rw [reconcile_parse_none ws acc folder hs hp]
  · cases hs : ws.sidecar folder with
    | true =>
      cases hp : ws.parseOf folder with
      | none => rw [reconcile_parse_none ws acc folder hs hp]
      | some parsed =>
        rw [reconcile_upsert ws acc folder parsed hs hp]
        exact lookup_upsert_ne acc.1 acc.2.1 folder q parsed _ _ (fun h => hf h.symm)
    | false =>
      cases hsome : (getRowByPath acc.1 folder).isSome with
      | true =>
        rw [reconcile_delete ws acc folder hs hsome]
        exact lookup_delete_ne acc.1 folder q (fun h => hf h.symm)
      | false =>
        rw [reconcile_absent ws acc folder hs
          (Option.not_isSome_iff_eq_none.1 (by rw [hsome]; simp))]

/-- The batch loop leaves a path's lookup unchanged when every step for
that path has a present-but-unparsable sidecar (in particular when no step
is for that path). -/
theorem batchFold_lookup (ws : WatchFs) (l : List String)
    (acc : Db × Nat × List WatchEvent) (q : String)
    (hcase : ∀ f ∈ l, f = q → ws.sidecar q = true ∧ ws.parseOf q = none) :
    getRowByPath (l.foldl (reconcileFolder ws) acc).1 q = getRowByPath acc.1 q := by
  induction l generalizing acc with
  | nil => rfl
  | cons f rest ih =>
    rw [List.foldl_cons, ih _ (fun f' hf' => hcase f' (List.mem_cons_of_mem _ hf'))]
    exact reconcile_lookup_preserved ws acc f q (hcase f (List.mem_cons_self f rest))

/-- C7: a parse failure alone never deletes or overwrites a stored
record. First conjunct (scanner): for a discovered folder whose sidecar
fails to parse, `start_scan` leaves the catalog entry for that folder —
present or absent — exactly as it was. Second conjunct (watcher): a batch
reconciliation of folders leaves the entry of a folder whose sidecar
exists but fails to parse unchanged. -/
theorem c7_parse_failure_retains :
    (∀ (root : String) (fs : ScanFs) (db : Db) (n : Nat) (f : String),
        f ∈ fs.folders → fs.parseOf f = none →
        getRowByPath (start_scan root fs db n).db f = getRowByPath db f)
    ∧ (∀ (ws : WatchFs) (folders : List String) (db : Db) (n : Nat) (f : String),
        ws.sidecar f = true → ws.parseOf f = none →
        getRowByPath (process_batch ws folders db n).1 f = getRowByPath db f) := by
  constructor
  · intro root fs db n f hmem hp
    rw [start_scan_db,
      sweepFold_lookup_scanned root fs.folders (get_all_gallery_paths db)
        ((fs.folders.foldl (scanFolder fs) (db, n, 0)).1, 0) f hmem]
    show getRowByPath (fs.folders.foldl (scanFolder fs) (db, n, 0)).1 f = getRowByPath db f
    rw [scanFold_lookup_parse_none fs fs.folders (db, n, 0) f hp]
  · intro ws folders db n f hs hp
    unfold process_batch
    exact batchFold_lookup ws folders (db, n, []) f (fun f' _ _ => ⟨hs, hp⟩)

/-- C7 witness: a malformed sidecar in a scanned folder and in a watched
folder leaves the concrete stored record in place. -/
theorem c7_parse_failure_retains_witness :
    getRowByPath
        (start_scan "/r"
          { folders := ["/r/g"], mtimeOf := fun _ => "2",
            parseOf := fun _ => none, thumbOf := fun _ => "" }
          [sampleRow 3 "/r/g" "u" "g"] 5).db "/r/g" =
      getRowByPath [sampleRow 3 "/r/g" "u" "g"] "/r/g"
    ∧ getRowByPath
        (process_batch
          { sidecar := fun _ => true, parseOf := fun _ => none,
            mtimeOf := fun _ => "2", thumbOf := fun _ => "" }
          ["/r/g"] [sampleRow 3 "/r/g" "u" "g"] 5).1 "/r/g" =
      getRowByPath [sampleRow 3 "/r/g" "u" "g"] "/r/g" :=
  ⟨c7_parse_failure_retains.1 "/r" _ _ 5 "/r/g" (by decide) rfl,
   c7_parse_failure_retains.2 _ ["/r/g"] _ 5 "/r/g" rfl rfl⟩

/-- C6: in a coalesced batch over distinct affected parent folders, a
folder whose sidecar exists and parses is upserted through the scanner's
parse→thumbnail→upsert path (the final catalog holds exactly the freshly
written row for it) and an `{upsert, path}` notification is emitted; a
folder with no sidecar but a stored record has the record deleted and a
`{delete, path}` notification emitted; and no other catalog entry is
mutated by the batch. -/
theorem c6_watcher_reconciliation (ws : WatchFs) (folders : List String) (db : Db)
    (n : Nat) (hnd : folders.Nodup) :
    (∀ f ∈ folders, ws.sidecar f = true → ∀ parsed, ws.parseOf f = some parsed →
        (∃ i, getRowByPath (process_batch ws folders db n).1 f =
            some ⟨i, f, parsed, ws.thumbOf f, fileNameOf f, parentOf f, ws.mtimeOf f⟩)
        ∧ (⟨"upsert", f⟩ : WatchEvent) ∈ (process_batch ws folders db n).2.2)
    ∧ (∀ f ∈ folders, ws.sidecar f = false → (getRowByPath db f).isSome = true →
        getRowByPath (process_batch ws folders db n).1 f = none
        ∧ (⟨"delete", f⟩ : WatchEvent) ∈ (process_batch ws folders db n).2.2)
    ∧ (∀ q, q ∉ folders →
        getRowByPath (process_batch ws folders db n).1 q = getRowByPath db q) := by
  refine ⟨?_, ?_, ?_⟩
  · intro f hmem hs parsed hp
    obtain ⟨l1, l2, hsplit⟩ := List.append_of_mem hmem
    subst hsplit
    rw [List.nodup_append] at hnd
    obtain ⟨-, hnd2, -⟩ := hnd
    have hf2 : f ∉ l2 := (List.nodup_cons.1 hnd2).1
    unfold process_batch
    rw [List.foldl_append, List.foldl_cons,
      reconcile_upsert ws (l1.foldl (reconcileFolder ws) (db, n, [])) f parsed hs hp]
    constructor
    · obtain ⟨i, hi⟩ := lookup_upsert_self (l1.foldl (reconcileFolder ws) (db, n, [])).1
        (l1.foldl (reconcileFolder ws) (db, n, [])).2.1 f parsed (ws.thumbOf f) (ws.mtimeOf f)
      refine ⟨i, ?_⟩
      rw [batchFold_lookup ws l2 _ f (fun f' hf' hf'e => absurd (hf'e ▸ hf') hf2)]
      exact hi
    · exact batchFold_events_mono ws l2 _ _
        (List.mem_append_right _ (List.mem_singleton.2 rfl))
  · intro f hmem hs hsome
    obtain ⟨l1, l2, hsplit⟩ := List.append_of_mem hmem
    subst hsplit
    rw [List.nodup_append] at hnd
    obtain ⟨-, hnd2, hdisj⟩ := hnd
    have hf1 : f ∉ l1 := fun hmem1 => hdisj hmem1 (List.mem_cons_self f l2)
    have hf2 : f ∉ l2 := (List.nodup_cons.1 hnd2).1
    unfold process_batch
    rw [List.foldl_append, List.foldl_cons]
    have hsome1 : (getRowByPath (l1.foldl (reconcileFolder ws) (db, n, [])).1 f).isSome
        = true := by
      rw [batchFold_lookup ws l1 _ f (fun f' hf' hf'e => absurd (hf'e ▸ hf') hf1)]
      exact hsome
    rw [reconcile_delete ws (l1.foldl (reconcileFolder ws) (db, n, [])) f hs hsome1]
    constructor
    · rw [batchFold_lookup ws l2 _ f (fun f' hf' hf'e => absurd (hf'e ▸ hf') hf2)]
      exact lookup_delete_self _ f
    · exact batchFold_events_mono ws l2 _ _
        (List.mem_append_right _ (List.mem_singleton.2 rfl))
  · intro q hq
    unfold process_batch
    rw [batchFold_lookup ws folders (db, n, []) q (fun f hf hfq => absurd (hfq ▸ hf) hq)]

/-- C6 witness: a concrete two-folder batch — one folder gains a parsed
sidecar (upserted, notified), one loses its sidecar while catalogued
(deleted, notified) — and a path outside the batch is untouched. -/
theorem c6_watcher_reconciliation_witness :
    ((∃ i, getRowByPath
          (process_batch
            { sidecar := fun f => f == "/w/a", parseOf := fun _ => some (sampleMeta "u"),
              mtimeOf := fun _ => "3", thumbOf := fun _ => "t" }
            ["/w/a", "/w/b"] [sampleRow 4 "/w/b" "v" "b"] 7).1 "/w/a" =
        some ⟨i, "/w/a", sampleMeta "u", "t", fileNameOf "/w/a", parentOf "/w/a", "3"⟩)
      ∧ (⟨"upsert", "/w/a"⟩ : WatchEvent) ∈
        (process_batch
          { sidecar := fun f => f == "/w/a", parseOf := fun _ => some (sampleMeta "u"),
            mtimeOf := fun _ => "3", thumbOf := fun _ => "t" }
          ["/w/a", "/w/b"] [sampleRow 4 "/w/b" "v" "b"] 7).2.2)
    ∧ (getRowByPath
          (process_batch
            { sidecar := fun f => f == "/w/a", parseOf := fun _ => some (sampleMeta "u"),
              mtimeOf := fun _ => "3", thumbOf := fun _ => "t" }
            ["/w/a", "/w/b"] [sampleRow 4 "/w/b" "v" "b"] 7).1 "/w/b" = none
      ∧ (⟨"delete", "/w/b"⟩ : WatchEvent) ∈
        (process_batch
          { sidecar := fun f => f == "/w/a", parseOf := fun _ => some (sampleMeta "u"),
            mtimeOf := fun _ => "3", thumbOf := fun _ => "t" }
          ["/w/a", "/w/b"] [sampleRow 4 "/w/b" "v" "b"] 7).2.2)
    ∧ getRowByPath
        (process_batch
          { sidecar := fun f => f == "/w/a", parseOf := fun _ => some (sampleMeta "u"),
            mtimeOf := fun _ => "3", thumbOf := fun _ => "t" }
          ["/w/a", "/w/b"] [sampleRow 4 "/w/b" "v" "b"] 7).1 "/w/c" =
      getRowByPath [sampleRow 4 "/w/b" "v" "b"] "/w/c" :=
  ⟨(c6_watcher_reconciliation _ ["/w/a", "/w/b"] _ 7 (by decide)).1 "/w/a"
      (by decide) rfl (sampleMeta "u") rfl,
   (c6_watcher_reconciliation _ ["/w/a", "/w/b"] _ 7 (by decide)).2.1 "/w/b"
      (by decide) rfl (by decide),
   (c6_watcher_reconciliation _ ["/w/a", "/w/b"] _ 7 (by decide)).2.2 "/w/c"
      (by decide)⟩


/-! ### Natural-order lemmas -/

/-- Character comparison is reflexive-equal. -/
theorem chCmp_self (c : Char) : chCmp c c = .eq := by
  unfold chCmp
  exact Nat.compare_eq_eq.2 rfl

/-- Character-list comparison is reflexive-equal. -/
theorem charsCmp_self (cs : List Char) : charsCmp cs cs = .eq := by
  induction cs with
  | nil => rfl
  | cons c rest ih =>
    unfold charsCmp
    rw [chCmp_self c]
    exact ih

/-- Segment comparison is reflexive-equal. -/
theorem segCmp_self (a : NaturalSegment) : segCmp a a = .eq := by
  cases a with
  | number n => exact Nat.compare_eq_eq.2 rfl
  | text s => exact charsCmp_self s.data

/-- Whenever two keys first differ at a position where one has a numeric
run and the other a text run, the numeric one compares less — whatever
follows. -/
theorem keyCmp_append_num_text (pre : List NaturalSegment) (n : Nat) (s : String)
    (r1 r2 : List NaturalSegment) :
    keyCmp (pre ++ .number n :: r1) (pre ++ .text s :: r2) = .lt := by
  induction pre with
  | nil => rfl
  | cons a pre ih =>
    show keyCmp (a :: (pre ++ _)) (a :: (pre ++ _)) = .lt
    unfold keyCmp
    rw [segCmp_self a]
    exact ih

/-- A name cannot be both number-headed and text-headed. -/
theorem num_text_absurd (y : String) (h1 : headIsNumber y = true)
    (h2 : headIsText y = true) : False := by
  unfold headIsNumber at h1
  unfold headIsText at h2
  cases hk : natural_sort_key y with
  | nil => rw [hk] at h1; cases h1
  | cons s r =>
    cases s with
    | number n => rw [hk] at h2; cases h2
    | text t => rw [hk] at h1; cases h1

/-- A number-headed name compares less than a text-headed one. -/
theorem numText_lt (a b : String) (ha : headIsNumber a = true)
    (hb : headIsText b = true) : naturalCmp a b = .lt := by
  unfold headIsNumber at ha
  unfold headIsText at hb
  unfold naturalCmp
  cases hka : natural_sort_key a with
  | nil => rw [hka] at ha; cases ha
  | cons sa ra =>
    cases sa with
    | text s => rw [hka] at ha; cases ha
    | number m =>
      cases hkb : natural_sort_key b with
      | nil => rw [hkb] at hb; cases hb
      | cons sb rb =>
        cases sb with
        | number k => rw [hkb] at hb; cases hb
        | text s => rfl

/-- A text-headed name compares greater than a number-headed one. -/
theorem textNum_gt (a b : String) (ha : headIsText a = true)
    (hb : headIsNumber b = true) : naturalCmp a b = .gt := by
  unfold headIsText at ha
  unfold headIsNumber at hb
  unfold naturalCmp
  cases hka : natural_sort_key a with
  | nil => rw [hka] at ha; cases ha
  | cons sa ra =>
    cases sa with
    | number m => rw [hka] at ha; cases ha
    | text s =>
      cases hkb : natural_sort_key b with
      | nil => rw [hkb] at hb; cases hb
      | cons sb rb =>
        cases sb with
        | text t => rw [hkb] at hb; cases hb
        | number k => rfl

/-- The key loop yields a non-empty key when fed remaining characters, a
pending run, or already-flushed segments. -/
theorem naturalKeyAux_ne_nil (cs : List Char) (numAcc strAcc : List Char)
    (segs : List NaturalSegment)
    (h : ¬ cs.isEmpty = true ∨ ¬ numAcc.isEmpty = true ∨ ¬ strAcc.isEmpty = true
      ∨ ¬ segs.isEmpty = true) :
    naturalKeyAux cs numAcc strAcc segs ≠ [] := by
  induction cs generalizing numAcc strAcc segs with
  | nil =>
    unfold naturalKeyAux
    by_cases hs : strAcc.isEmpty = true
    · rw [if_neg (not_not_intro hs)]
      by_cases hn : numAcc.isEmpty = true
      · rw [if_neg (not_not_intro hn)]
        rcases h with h | h | h | h
        · exact absurd rfl h
        · exact absurd hn h
        · exact absurd hs h
        · simpa using h
      · rw [if_pos hn]
        simp
    · rw [if_pos hs]
      simp
  | cons c rest ih =>
    unfold naturalKeyAux
    split
    · exact ih _ _ _ (Or.inr (Or.inl (by simp)))
    · exact ih _ _ _ (Or.inr (Or.inr (Or.inl (by simp))))

/-- A non-empty file name has a non-empty natural key. -/
theorem natural_sort_key_ne_nil (name : String) (h : name ≠ "") :
    natural_sort_key name ≠ [] := by
  unfold natural_sort_key
  apply naturalKeyAux_ne_nil
  left
  obtain ⟨cs⟩ := name
  intro hempty
  exact h (by
    have : cs = [] := by simpa using hempty
    rw [this])

/-- A name with a non-empty key is number-headed or text-headed. -/
theorem headNum_or_headText (x : String) (h : natural_sort_key x ≠ []) :
    headIsNumber x = true ∨ headIsText x = true := by
  unfold headIsNumber headIsText
  cases hk : natural_sort_key x with
  | nil => exact absurd hk h
  | cons s r =>
    cases s with
    | number n => left; rfl
    | text t => right; rfl

/-- Ordered insertion into the empty list. -/
theorem insertNatural_nil (x : String) : insertNatural x [] = [x] := rfl

/-- Ordered-insertion unfolding on a non-empty list. -/
theorem insertNatural_cons (x y : String) (ys : List String) :
    insertNatural x (y :: ys) =
      if naturalCmp x y = .gt then y :: insertNatural x ys else x :: y :: ys := rfl

/-- Ordered-insertion unfolding: the new element goes past a smaller head. -/
theorem insertNatural_gt (x y : String) (ys : List String)
    (h : naturalCmp x y = .gt) :
    insertNatural x (y :: ys) = y :: insertNatural x ys := by
  rw [insertNatural_cons, if_pos h]

/-- Ordered-insertion unfolding: the new element stops before a head it
does not exceed. -/
theorem insertNatural_le (x y : String) (ys : List String)
    (h : ¬ naturalCmp x y = .gt) :
    insertNatural x (y :: ys) = x :: y :: ys := by
  rw [insertNatural_cons, if_neg h]

/-- Members of an ordered insertion are the new element or old members. -/
theorem mem_insertNatural (x y : String) (l : List String)
    (h : y ∈ insertNatural x l) : y = x ∨ y ∈ l := by
  induction l with
  | nil =>
    rw [insertNatural_nil] at h
    exact Or.inl (List.mem_singleton.1 h)
  | cons a l ih =>
    by_cases hcmp : naturalCmp x a = .gt
    · rw [insertNatural_gt x a l hcmp] at h
      rcases List.mem_cons.1 h with h | h
      · exact Or.inr (List.mem_cons.2 (Or.inl h))
      · rcases ih h with h | h
        · exact Or.inl h
        · exact Or.inr (List.mem_cons.2 (Or.inr h))
    · rw [insertNatural_le x a l hcmp] at h
      rcases List.mem_cons.1 h with h | h
      · exact Or.inl h
      · exact Or.inr h

/-- Old members survive an ordered insertion. -/
theorem mem_insertNatural_of_mem (x y : String) (l : List String) (h : y ∈ l) :
    y ∈ insertNatural x l := by
  induction l with
  | nil => cases h
  | cons a l ih =>
    by_cases hcmp : naturalCmp x a = .gt
    · rw [insertNatural_gt x a l hcmp]
      rcases List.mem_cons.1 h with h | h
      · exact List.mem_cons.2 (Or.inl h)
      · exact List.mem_cons.2 (Or.inr (ih h))
    · rw [insertNatural_le x a l hcmp]
      exact List.mem_cons.2 (Or.inr h)

/-- The inserted element is a member of the result. -/
theorem self_mem_insertNatural (x : String) (l : List String) :
    x ∈ insertNatural x l := by
  induction l with
  | nil =>
    rw [insertNatural_nil]
    exact List.mem_singleton.2 rfl
  | cons a l ih =>
    by_cases hcmp : naturalCmp x a = .gt
    · rw [insertNatural_gt x a l hcmp]
      exact List.mem_cons.2 (Or.inr ih)
    · rw [insertNatural_le x a l hcmp]
      exact List.mem_cons.2 (Or.inl rfl)

/-- The natural sort is a permutation membership-wise. -/
theorem mem_naturalSort (l : List String) (e : String) :
    e ∈ naturalSort l ↔ e ∈ l := by
  induction l with
  | nil => exact Iff.rfl
  | cons a l ih =>
    show e ∈ insertNatural a (naturalSort l) ↔ _
    constructor
    · intro h
      rcases mem_insertNatural a e (naturalSort l) h with h | h
      · exact List.mem_cons.2 (Or.inl h)
      · exact List.mem_cons.2 (Or.inr (ih.1 h))
    · intro h
      rcases List.mem_cons.1 h with h | h
      · rw [h]
        exact self_mem_insertNatural a (naturalSort l)
      · exact mem_insertNatural_of_mem a e (naturalSort l) (ih.2 h)

/-- Inserting into a list whose head is number-headed whenever it has a
number-headed member preserves that property, provided every name in play
has a non-empty key. -/
theorem insert_good (x : String) (s : List String)
    (hx : natural_sort_key x ≠ [])
    (hs : ∀ e ∈ s, natural_sort_key e ≠ [])
    (hgood : (∃ e ∈ s, headIsNumber e = true) →
      ∃ h t, s = h :: t ∧ headIsNumber h = true) :
    (∃ e ∈ insertNatural x s, headIsNumber e = true) →
      ∃ h t, insertNatural x s = h :: t ∧ headIsNumber h = true := by
  rintro ⟨e, he, hnum⟩
  cases s with
  | nil =>
    refine ⟨x, [], insertNatural_nil x, ?_⟩
    rw [insertNatural_nil] at he
    rw [← List.mem_singleton.1 he]
    exact hnum
  | cons y ys =>
    by_cases hcmp : naturalCmp x y = .gt
    · rw [insertNatural_gt x y ys hcmp] at he ⊢
      refine ⟨y, insertNatural x ys, rfl, ?_⟩
      rcases headNum_or_headText y (hs y (by simp)) with hy | hy
      · exact hy
      · exfalso
        rcases List.mem_cons.1 he with rfl | he'
        · exact num_text_absurd e hnum hy
        · rcases mem_insertNatural x e ys he' with rfl | he2
          · have := numText_lt e y hnum hy
            rw [this] at hcmp
            cases hcmp
          · obtain ⟨h, t, heq, hh⟩ :=
              hgood ⟨e, List.mem_cons.2 (Or.inr he2), hnum⟩
            cases heq
            exact num_text_absurd y hh hy
    · rw [insertNatural_le x y ys hcmp] at he ⊢
      refine ⟨x, y :: ys, rfl, ?_⟩
      rcases List.mem_cons.1 he with rfl | he'
      · exact hnum
      · obtain ⟨h, t, heq, hh⟩ := hgood ⟨e, he', hnum⟩
        cases heq
        rcases headNum_or_headText x hx with hxn | hxt
        · exact hxn
        · exact absurd (textNum_gt x y hxt hh) hcmp

/-- If a list of names with non-empty keys has a number-headed member,
the head of its natural sort is number-headed. -/
theorem naturalSort_good (l : List String)
    (hl : ∀ e ∈ l, natural_sort_key e ≠ []) :
    (∃ e ∈ naturalSort l, headIsNumber e = true) →
      ∃ h t, naturalSort l = h :: t ∧ headIsNumber h = true := by
  induction l with
  | nil => rintro ⟨e, he, -⟩; exact absurd he (List.not_mem_nil e)
  | cons a l ih =>
    show (∃ e ∈ insertNatural a (naturalSort l), _) → _
    exact insert_good a (naturalSort l) (hl a (by simp))
      (fun e he => hl e (List.mem_cons.2 (Or.inr ((mem_naturalSort l e).1 he))))
      (ih (fun e he => hl e (List.mem_cons.2 (Or.inr he))))

/-- C10: in the natural ordering used by first-image selection and page
listing, whenever two keys first differ at a position where one has a
numeric run and the other an alphabetic run, the numeric one orders first
(first conjunct, for every common prefix and continuations); in
particular `"1.jpg"` precedes `"a.jpg"` (second conjunct); consequently,
for every directory of non-empty file names containing a digit-leading
image name, `get_first_image` selects a digit-leading name (third
conjunct). -/
theorem c10_numeric_run_first (entries : List String) (e0 : String)
    (hne : ∀ e ∈ entries, e ≠ "")
    (he0 : e0 ∈ entries) (him : isImageFile e0 = true)
    (hnum : headIsNumber e0 = true) :
    (∀ (pre r1 r2 : List NaturalSegment) (n : Nat) (s : String),
        keyCmp (pre ++ .number n :: r1) (pre ++ .text s :: r2) = .lt)
    ∧ naturalCmp "1.jpg" "a.jpg" = .lt
    ∧ ∃ x, get_first_image entries = some x ∧ headIsNumber x = true := by
  refine ⟨fun pre r1 r2 n s => keyCmp_append_num_text pre n s r1 r2, by decide, ?_⟩
  have he0' : e0 ∈ entries.filter isImageFile := List.mem_filter.2 ⟨he0, him⟩
  have hkeys : ∀ e ∈ entries.filter isImageFile, natural_sort_key e ≠ [] :=
    fun e he => natural_sort_key_ne_nil e (hne e (List.mem_filter.1 he).1)
  obtain ⟨h, t, heq, hh⟩ :=
    naturalSort_good (entries.filter isImageFile) hkeys
      ⟨e0, (mem_naturalSort (entries.filter isImageFile) e0).2 he0', hnum⟩
  refine ⟨h, ?_, hh⟩
  unfold get_first_image
  rw [heq]
  rfl

/-- C10 witness: a directory with a letter-leading and a digit-leading
image name selects the digit-leading one. -/
theorem c10_numeric_run_first_witness :
    (∀ e ∈ ["a.jpg", "1.jpg"], e ≠ "")
    ∧ ∃ x, get_first_image ["a.jpg", "1.jpg"] = some x ∧ headIsNumber x = true :=
  ⟨by decide,
   (c10_numeric_run_first ["a.jpg", "1.jpg"] "1.jpg" (by decide) (by decide)
      (by decide) (by decide)).2.2⟩

end EhMaster
